import Mathlib

/-!
Verification of the skimap repository: a dynamic-programming solver for the
longest strictly-descending path in a grid of elevations, followed by
enumeration of all maximal paths and selection of the steepest ones.

The repository holds two implementations of the same pipeline:
`src/unnamed/part_000` and `src/find_longest_route.js`.  Their solver stages
(`createDataMap`, `getBoxAt`, `getNeighbourInDirection`, `processBox`,
`findBestStartPoints`, `getGoodPathsFromStartPoints`, `addSteepness`,
`selectPathsWithGreatestSteepness`, `processMap`) are textually identical up
to cosmetics; they differ only in the base case of `getGoodPathsFromBox`
(`[ [ box ] ]` in part_000 versus `[ box ]` in find_longest_route.js).
We embed the shared stages once and the two `getGoodPathsFromBox` variants
separately.

Modelling conventions for the JavaScript source:
  - a field that the source leaves `undefined` until assignment
    (`maxDistance`, `goodDirections`) is an `Option`; `none` is `undefined`;
  - `undefined + 1` is `NaN` and every `NaN` comparison is false, so a read
    of an undefined `maxDistance` skips both branches: the embedding skips
    the direction (the `none` case of the inner match);
  - out-of-bounds and negative array indices yield `undefined`: `getBoxAt`
    returns `none` there;
  - in-place mutation of a box is a functional update of the grid entry at
    the coordinates of the box (the coordinates are never mutated and no two
    boxes of a data map share coordinates);
  - `array.sort(comparator)` on elevations is embedded as a comparison sort
    (`List.insertionSort`); ties between equal elevations never interact, so
    the choice of comparison sort is observationally irrelevant;
  - the recursive path enumeration is given explicit fuel; the pipelines pass
    fuel equal to the number of cells, which is proved sufficient;
  - statements that would throw a `TypeError` (reading a property of
    `undefined`) make the surrounding computation return `none`.
-/

namespace Skimap

/-- One cell of the data map, as built by `createDataMap`: fixed coordinates
and elevation, plus the two fields filled in by the Distance Solver
(`undefined`, i.e. `none`, until then). -/
structure Box where
  x : Int
  y : Int
  elevation : Int
  maxDistance : Option Nat := none
  goodDirections : Option (List (Int × Int)) := none
deriving DecidableEq, Repr

abbrev DataMap := List (List Box)

/-- Helper replacing `row.map(function (elevation, x) ...)`: a map that also
passes the element index. -/
def mapWithIndex {α β : Type} (f : Nat → α → β) : Nat → List α → List β
  | _, [] => []
  | i, a :: as => f i a :: mapWithIndex f (i + 1) as

/-- Embedding of `createDataMap`: turn the raw elevation grid into a grid of boxes holding
x, y and elevation; `maxDistance` and `goodDirections` stay undefined. -/
def createDataMap (mountainMap : List (List Int)) : DataMap :=
  mapWithIndex (fun y row =>
    mapWithIndex (fun x elevation =>
      { x := (x : Int), y := (y : Int), elevation := elevation }) 0 row) 0 mountainMap

/-- Embedding of `getBoxAt`: basic 2d-array lookup that also handles out-of-bounds
(negative or too-large indices give `undefined`). -/
def getBoxAt (array2d : DataMap) (x y : Int) : Option Box :=
  if 0 ≤ x ∧ 0 ≤ y then (array2d[y.toNat]?).bind (fun row => row[x.toNat]?) else none

/-- Embedding of `getNeighbourInDirection`: the box one step away in `direction`. -/
def getNeighbourInDirection (dataMap : DataMap) (box : Box) (direction : Int × Int) : Option Box :=
  getBoxAt dataMap (box.x + direction.1) (box.y + direction.2)

/-- The fixed direction order of `processBox`: west, south, east, north. -/
def DIRECTIONS : List (Int × Int) := [(-1, 0), (0, 1), (1, 0), (0, -1)]

/-- Body of the `DIRECTIONS.forEach` loop of `processBox`.  The accumulator is
the pair of the current `box.maxDistance` and `box.goodDirections`.  A missing
neighbour, an uphill-or-level neighbour, or a neighbour whose `maxDistance` is
still undefined (`NaN` arithmetic) leaves the accumulator unchanged. -/
def processDirection (dataMap : DataMap) (box : Box)
    (acc : Nat × Option (List (Int × Int))) (direction : Int × Int) :
    Nat × Option (List (Int × Int)) :=
  match getNeighbourInDirection dataMap box direction with
  | none => acc
  | some neighbour =>
    if neighbour.elevation < box.elevation then
      match neighbour.maxDistance with
      | none => acc
      | some nd =>
        let distanceViaNeighbour := nd + 1
        let acc1 := if distanceViaNeighbour > acc.1
          then (distanceViaNeighbour, some ([] : List (Int × Int))) else acc
        if distanceViaNeighbour ≥ acc1.1
          then (acc1.1, acc1.2.map (fun l => l ++ [direction])) else acc1
    else acc

/-- Embedding of `processBox`: recompute `maxDistance` (starting from 0) and
`goodDirections` of one box from its four neighbours.  The `push` onto
`goodDirections` is modelled with `Option.map`; the source can only reach the
push after `goodDirections` has been set to `[]`, so the `none` case never
arises (proved by `processDirection` never producing `0 < maxDistance` with
`none` directions). -/
def processBox (box : Box) (dataMap : DataMap) : Box :=
  let res := DIRECTIONS.foldl (processDirection dataMap box) (0, box.goodDirections)
  { box with maxDistance := some res.1, goodDirections := res.2 }

/-- Write a box back into the data map at integer coordinates; the functional
rendering of the in-place mutation performed by `processBox`. -/
def setBoxAt (dataMap : DataMap) (x y : Int) (b : Box) : DataMap :=
  if 0 ≤ x ∧ 0 ≤ y then
    match dataMap[y.toNat]? with
    | some row => dataMap.set y.toNat (row.set x.toNat b)
    | none => dataMap
  else dataMap

/-- Process the box stored at the given coordinates (the loop body of
`processMap`). -/
def processBoxAt (dataMap : DataMap) (x y : Int) : DataMap :=
  match getBoxAt dataMap x y with
  | some box => setBoxAt dataMap x y (processBox box dataMap)
  | none => dataMap

/-- Comparison used by `boxesFromLowToHigh`: sort boxes by elevation. -/
def elevLe (a b : Box) : Prop := a.elevation ≤ b.elevation

instance : DecidableRel elevLe := fun a b => (inferInstance : Decidable (a.elevation ≤ b.elevation))

instance : IsTotal Box elevLe := ⟨fun a b => Int.le_total a.elevation b.elevation⟩

instance : IsTrans Box elevLe := ⟨fun _ _ _ h1 h2 => le_trans h1 h2⟩

/-- The Distance Solver phase of `processMap`: build the data map, sort all
boxes from low to high elevation, and process each in that order. -/
def solveDataMap (mountainMap : List (List Int)) : DataMap :=
  let dataMap := createDataMap mountainMap
  let boxesFromLowToHigh := List.insertionSort elevLe dataMap.flatten
  boxesFromLowToHigh.foldl (fun dm box => processBoxAt dm box.x box.y) dataMap

/-- Body of the scan of `findBestStartPoints`.  A box whose `maxDistance` is
undefined fails both `NaN` comparisons and is skipped. -/
def fbspStep (acc : Int × List Box) (box : Box) : Int × List Box :=
  match box.maxDistance with
  | none => acc
  | some d =>
    let l0 := if (d : Int) > acc.1 then [] else acc.2
    if (d : Int) ≥ acc.1 then ((d : Int), l0 ++ [box]) else (acc.1, l0)

/-- Embedding of `findBestStartPoints`: scan all boxes tracking the best `maxDistance`
seen (starting from -1) and collect the boxes achieving it. -/
def findBestStartPoints (dataMap : DataMap) : List Box :=
  (dataMap.flatten.foldl fbspStep (-1, [])).2

/-- Embedding of `getGoodPathsFromBox` of part_000.  The truthiness test
`if (box.goodDirections)` is true for any array (even `[]`), so the base case
fires exactly on `none`.  Fuel bounds the recursion depth; exhausted fuel
returns no paths (the source recursion always terminates on solved grids, and
the pipelines pass sufficient fuel).  A direction whose neighbour is missing
would make the source throw; the solver never stores such a direction
(proved below), and the embedding returns no paths there. -/
def getGoodPathsFromBox (fuel : Nat) (dataMap : DataMap) (box : Box) : List (List Box) :=
  match fuel with
  | 0 => []
  | fuel + 1 =>
    match box.goodDirections with
    | some goodDirections =>
      (goodDirections.map (fun direction =>
        match getNeighbourInDirection dataMap box direction with
        | some neighbourBox =>
          (getGoodPathsFromBox fuel dataMap neighbourBox).map
            (fun onePathFromNeighbour => box :: onePathFromNeighbour)
        | none => [])).flatten
    | none => [[box]]

/-- Embedding of `getGoodPathsFromStartPoints`: gather the paths of every start point, in
start-point order. -/
def getGoodPathsFromStartPoints (fuel : Nat) (dataMap : DataMap) (startPoints : List Box) :
    List (List Box) :=
  (startPoints.map (fun startPoint => getGoodPathsFromBox fuel dataMap startPoint)).flatten

/-- Embedding of `addSteepness`: computes first-cell elevation minus last-cell elevation.
On an empty array the source would throw (`path[0]` is undefined); the
embedding returns a junk value of 0 there, and every theorem about steepness
assumes non-empty paths. -/
def pathSteepness (path : List Box) : Int :=
  match path.head?, path.getLast? with
  | some startBox, some endBox => startBox.elevation - endBox.elevation
  | _, _ => 0

/-- Embedding of `_.max` of underscore.js: the maximum of a list of numbers, `-Infinity`
(here `none`) on an empty list. -/
def underscoreMax (list : List Int) : Option Int :=
  match list with
  | [] => none
  | x :: xs => some (xs.foldl (fun a v => max a v) x)

/-- Embedding of `selectPathsWithGreatestSteepness`: annotate each path with its
steepness, then keep exactly the paths achieving the maximum steepness, in
input order.  On an empty input `_.max` gives `-Infinity` and `_.where`
matches nothing, so the result is `[]`. -/
def selectPathsWithGreatestSteepness (potentialPaths : List (List Box)) : List (List Box) :=
  match underscoreMax (potentialPaths.map pathSteepness) with
  | none => []
  | some greatestSteepness =>
    potentialPaths.filter (fun p => pathSteepness p = greatestSteepness)

/-- The part_000 pipeline `processMap`, returning the list of steepest
maximal paths it reports. -/
def processMapP000 (mountainMap : List (List Int)) : List (List Box) :=
  let dataMap := solveDataMap mountainMap
  let bestStartPoints := findBestStartPoints dataMap
  let potentialPaths := getGoodPathsFromStartPoints dataMap.flatten.length dataMap bestStartPoints
  selectPathsWithGreatestSteepness potentialPaths

/-! ### The find_longest_route.js variant of the path enumeration

Its `getGoodPathsFromBox` returns, in the terminal case, `[ box ]` — a list
whose single element is the box itself, not a one-element path.  Because the
recursive case deep-flattens `[box, onePathFromNeighbour]`, a bare box coming
back from a recursive call is absorbed correctly, but a bare box returned
from a top-level call reaches `addSteepness`, which reads `path[0]` of a
non-array and throws a `TypeError`. -/

/-- A value in the list returned by `getGoodPathsFromBox` of
find_longest_route.js: either a bare box (terminal case) or an array path. -/
inductive FlrPath where
  | boxVal : Box → FlrPath
  | pathVal : List Box → FlrPath
deriving DecidableEq, Repr

/-- How `_.flatten([box, v])` views a returned value as a path. -/
def toPath : FlrPath → List Box
  | .boxVal b => [b]
  | .pathVal p => p

/-- Embedding of `getGoodPathsFromBox` of find_longest_route.js.  The guard is
`box && box.goodDirections && box.goodDirections.length > 0`. -/
def flrGetGoodPathsFromBox (fuel : Nat) (dataMap : DataMap) (box : Box) : List FlrPath :=
  match fuel with
  | 0 => []
  | fuel + 1 =>
    match box.goodDirections with
    | some goodDirections =>
      if goodDirections.length > 0 then
        (goodDirections.map (fun direction =>
          match getNeighbourInDirection dataMap box direction with
          | some neighbourBox =>
            (flrGetGoodPathsFromBox fuel dataMap neighbourBox).map
              (fun v => FlrPath.pathVal (box :: toPath v))
          | none => [])).flatten
      else [FlrPath.boxVal box]
    | none => [FlrPath.boxVal box]

/-- Embedding of `addSteepness` of find_longest_route.js on a returned value: on a bare
box or an empty array the source throws (`none`); on a non-empty array path
it yields the steepness. -/
def flrAddSteepness : FlrPath → Option Int
  | .pathVal p =>
    match p.head?, p.getLast? with
    | some startBox, some endBox => some (startBox.elevation - endBox.elevation)
    | _, _ => none
  | .boxVal _ => none

/-- The `potentialPaths.forEach(addSteepness)` loop: it throws (returns
`none`) at the first element `addSteepness` throws on, else yields all
steepness values in order. -/
def forEachAddSteepness : List FlrPath → Option (List Int)
  | [] => some []
  | p :: ps =>
    match flrAddSteepness p with
    | none => none
    | some s => (forEachAddSteepness ps).map (fun ss => s :: ss)

/-- Embedding of `selectPathsWithGreatestSteepness` of find_longest_route.js; `none` when
`addSteepness` throws on some element. -/
def flrSelectPathsWithGreatestSteepness (potentialPaths : List FlrPath) :
    Option (List FlrPath) :=
  match forEachAddSteepness potentialPaths with
  | none => none
  | some steepnesses =>
    match underscoreMax steepnesses with
    | none => some []
    | some greatestSteepness =>
      some (potentialPaths.filter (fun p => flrAddSteepness p = some greatestSteepness))

/-- The find_longest_route.js pipeline `processMap`.  After selection it
dereferences `steepestPaths[0].length`, throwing a `TypeError` when the list
is empty; `none` models any thrown `TypeError`. -/
def flrProcessMap (mountainMap : List (List Int)) : Option (List FlrPath) :=
  let dataMap := solveDataMap mountainMap
  let bestStartPoints := findBestStartPoints dataMap
  let potentialPaths :=
    (bestStartPoints.map (fun s => flrGetGoodPathsFromBox dataMap.flatten.length dataMap s)).flatten
  match flrSelectPathsWithGreatestSteepness potentialPaths with
  | none => none
  | some steepestPaths => if steepestPaths.isEmpty then none else some steepestPaths

/-! ### Coordinate coherence of data maps -/

/-- Pure 2d lookup at natural-number indices. -/
def cellAt (dm : DataMap) (i j : Nat) : Option Box :=
  (dm[j]?).bind (fun row => row[i]?)

/-- A data map is coherent when every stored box records the coordinates of
the slot holding it.  `createDataMap` establishes this and the solver
preserves it. -/
def Coherent (dm : DataMap) : Prop :=
  ∀ i j b, cellAt dm i j = some b → b.x = (i : Int) ∧ b.y = (j : Int)

lemma getBoxAt_eq_cellAt (dm : DataMap) {x y : Int} (hx : 0 ≤ x) (hy : 0 ≤ y) :
    getBoxAt dm x y = cellAt dm x.toNat y.toNat := by
  simp [getBoxAt, cellAt, hx, hy]

lemma cellAt_mem_flatten {dm : DataMap} {i j : Nat} {b : Box}
    (h : cellAt dm i j = some b) : b ∈ dm.flatten := by
  unfold cellAt at h
  rcases Option.bind_eq_some.mp h with ⟨row, hrow, hb⟩
  refine List.mem_flatten.mpr ⟨row, ?_, ?_⟩
  · rcases List.getElem?_eq_some_iff.mp hrow with ⟨hlt, he⟩
    exact he ▸ List.getElem_mem hlt
  · rcases List.getElem?_eq_some_iff.mp hb with ⟨hlt, he⟩
    exact he ▸ List.getElem_mem hlt

lemma mem_flatten_cellAt {dm : DataMap} {b : Box} (h : b ∈ dm.flatten) :
    ∃ i j, cellAt dm i j = some b := by
  rcases List.mem_flatten.mp h with ⟨row, hrow, hb⟩
  rcases List.mem_iff_getElem?.mp hrow with ⟨j, hj⟩
  rcases List.mem_iff_getElem?.mp hb with ⟨i, hi⟩
  exact ⟨i, j, by simp [cellAt, hj, hi]⟩

lemma Coherent.getBoxAt_self {dm : DataMap} (hc : Coherent dm) {b : Box}
    (hb : b ∈ dm.flatten) :
    0 ≤ b.x ∧ 0 ≤ b.y ∧ getBoxAt dm b.x b.y = some b := by
  rcases mem_flatten_cellAt hb with ⟨i, j, hij⟩
  rcases hc i j b hij with ⟨hx, hy⟩
  refine ⟨hx ▸ Int.natCast_nonneg i, hy ▸ Int.natCast_nonneg j, ?_⟩
  rw [hx, hy, getBoxAt_eq_cellAt dm (Int.natCast_nonneg i) (Int.natCast_nonneg j)]
  simpa using hij

lemma Coherent.nodup_flatten {dm : DataMap} (hc : Coherent dm) : dm.flatten.Nodup := by
  refine List.nodup_flatten.mpr ⟨?_, ?_⟩
  · intro row hrow
    rcases List.mem_iff_getElem?.mp hrow with ⟨j, hj⟩
    refine List.nodup_iff_injective_get.mpr ?_
    intro n1 n2 hget
    have h1 : cellAt dm n1.1 j = some (row.get n1) := by
      simp only [cellAt, hj, Option.some_bind]
      exact List.getElem?_eq_some_iff.mpr ⟨n1.2, by simp [List.get_eq_getElem]⟩
    have h2 : cellAt dm n2.1 j = some (row.get n2) := by
      simp only [cellAt, hj, Option.some_bind]
      exact List.getElem?_eq_some_iff.mpr ⟨n2.2, by simp [List.get_eq_getElem]⟩
    have e1 := (hc _ _ _ h1).1
    have e2 := (hc _ _ _ h2).1
    rw [hget] at e1
    have : (n1.1 : Int) = (n2.1 : Int) := by rw [← e1, ← e2]
    exact Fin.ext (by exact_mod_cast this)
  · refine List.pairwise_iff_getElem.mpr ?_
    intro j1 j2 hj1 hj2 hlt
    intro b hb1 hb2
    have hg1 : dm[j1]? = some dm[j1] := List.getElem?_eq_some_iff.mpr ⟨hj1, rfl⟩
    have hg2 : dm[j2]? = some dm[j2] := List.getElem?_eq_some_iff.mpr ⟨hj2, rfl⟩
    rcases List.mem_iff_getElem?.mp hb1 with ⟨i1, hi1⟩
    rcases List.mem_iff_getElem?.mp hb2 with ⟨i2, hi2⟩
    have c1 : cellAt dm i1 j1 = some b := by simp [cellAt, hg1, hi1]
    have c2 : cellAt dm i2 j2 = some b := by simp [cellAt, hg2, hi2]
    have e1 := (hc _ _ _ c1).2
    have e2 := (hc _ _ _ c2).2
    have : (j1 : Int) = (j2 : Int) := by rw [← e1, ← e2]
    have : j1 = j2 := by exact_mod_cast this
    omega

/-! ### Properties of createDataMap -/

lemma mapWithIndex_getElem? {α β : Type} (f : Nat → α → β) :
    ∀ (l : List α) (k n : Nat), (mapWithIndex f k l)[n]? = (l[n]?).map (f (k + n))
  | [], k, n => by simp [mapWithIndex]
  | a :: as, k, 0 => by simp [mapWithIndex]
  | a :: as, k, n + 1 => by
    simp only [mapWithIndex, List.getElem?_cons_succ]
    rw [mapWithIndex_getElem? f as (k + 1) n, Nat.add_assoc, Nat.add_comm 1 n]

lemma cellAt_createDataMap (m : List (List Int)) (i j : Nat) :
    cellAt (createDataMap m) i j =
      ((m[j]?).bind (fun row => row[i]?)).map (fun elevation =>
        { x := (i : Int), y := (j : Int), elevation := elevation,
          maxDistance := none, goodDirections := none }) := by
  unfold cellAt createDataMap
  rw [mapWithIndex_getElem?]
  cases hj : m[j]? with
  | none => simp
  | some row =>
    simp only [Nat.zero_add, Option.map_some', Option.some_bind]
    rw [mapWithIndex_getElem?]
    cases hi : row[i]? with
    | none => simp
    | some e => simp

lemma coherent_createDataMap (m : List (List Int)) : Coherent (createDataMap m) := by
  intro i j b h
  rw [cellAt_createDataMap] at h
  rcases Option.map_eq_some'.mp h with ⟨e, _, hb⟩
  rw [← hb]
  exact ⟨rfl, rfl⟩

lemma createDataMap_unprocessed (m : List (List Int)) :
    ∀ b ∈ (createDataMap m).flatten, b.maxDistance = none ∧ b.goodDirections = none := by
  intro b hb
  rcases mem_flatten_cellAt hb with ⟨i, j, hij⟩
  rw [cellAt_createDataMap] at hij
  rcases Option.map_eq_some'.mp hij with ⟨e, _, hb2⟩
  rw [← hb2]
  exact ⟨rfl, rfl⟩

/-! ### Characterisation of processBox -/

/-- The distance offered by one direction: `some (nd + 1)` when a downhill
neighbour with a defined `maxDistance` of `nd` lies that way, else `none`. -/
def candidate (dataMap : DataMap) (box : Box) (direction : Int × Int) : Option Nat :=
  (getNeighbourInDirection dataMap box direction).bind (fun neighbour =>
    if neighbour.elevation < box.elevation
      then neighbour.maxDistance.map (fun nd => nd + 1) else none)

/-- Maximum candidate distance over a list of directions, from accumulator m. -/
def bellAux (dataMap : DataMap) (box : Box) (m : Nat) (ds : List (Int × Int)) : Nat :=
  ds.foldl (fun a d => max a ((candidate dataMap box d).getD 0)) m

/-- The value `processBox` assigns to `maxDistance`: the maximum over the
four directions of the candidate distances, or 0 when none exists. -/
def bell (dataMap : DataMap) (box : Box) : Nat := bellAux dataMap box 0 DIRECTIONS

lemma candidate_eq_some_iff {dataMap : DataMap} {box : Box} {d : Int × Int} {v : Nat} :
    candidate dataMap box d = some v ↔
      ∃ n, getNeighbourInDirection dataMap box d = some n ∧ n.elevation < box.elevation ∧
        ∃ nd, n.maxDistance = some nd ∧ v = nd + 1 := by
  unfold candidate
  cases hn : getNeighbourInDirection dataMap box d with
  | none => simp
  | some n =>
    simp only [Option.some_bind]
    constructor
    · intro h
      by_cases he : n.elevation < box.elevation
      · rw [if_pos he] at h
        cases hm : n.maxDistance with
        | none => rw [hm] at h; simp at h
        | some nd =>
          rw [hm] at h
          simp only [Option.map_some', Option.some_inj] at h
          exact ⟨n, rfl, he, nd, hm, h.symm⟩
      · rw [if_neg he] at h; simp at h
    · rintro ⟨n2, hn2, he2, nd2, hm2, hv⟩
      have hnn : n = n2 := by injection hn2
      subst hnn
      rw [if_pos he2, hm2, hv]
      rfl

lemma candidate_eq_none_cases {dataMap : DataMap} {box : Box} {d : Int × Int}
    (h : candidate dataMap box d = none) :
    ∀ n, getNeighbourInDirection dataMap box d = some n →
      ¬ n.elevation < box.elevation ∨ n.maxDistance = none := by
  intro n hn
  unfold candidate at h
  rw [hn, Option.some_bind] at h
  by_cases he : n.elevation < box.elevation
  · rw [if_pos he] at h
    cases hm : n.maxDistance with
    | none => exact Or.inr rfl
    | some nd => rw [hm] at h; simp at h
  · exact Or.inl he

lemma candidate_pos {dataMap : DataMap} {box : Box} {d : Int × Int} {v : Nat}
    (h : candidate dataMap box d = some v) : 1 ≤ v := by
  rcases candidate_eq_some_iff.mp h with ⟨n, _, _, nd, _, hv⟩
  omega

lemma processDirection_none {dataMap : DataMap} {box : Box} {d : Int × Int}
    (h : candidate dataMap box d = none) (acc : Nat × Option (List (Int × Int))) :
    processDirection dataMap box acc d = acc := by
  unfold processDirection
  split
  · rfl
  next n hn =>
    rcases candidate_eq_none_cases h n hn with he | hm
    · rw [if_neg he]
    · by_cases he : n.elevation < box.elevation
      · rw [if_pos he, hm]
      · rw [if_neg he]

lemma processDirection_some {dataMap : DataMap} {box : Box} {d : Int × Int} {v : Nat}
    (h : candidate dataMap box d = some v) (m : Nat) (g : Option (List (Int × Int))) :
    processDirection dataMap box (m, g) d =
      if v > m then (v, some [d])
      else if v = m then (m, g.map (fun l => l ++ [d]))
      else (m, g) := by
  rcases candidate_eq_some_iff.mp h with ⟨n, hn, he, nd, hm, hv⟩
  subst hv
  unfold processDirection
  split
  next hnone => rw [hnone] at hn; cases hn
  next n2 hn2 =>
    rw [hn2] at hn
    injection hn with hnn
    subst hnn
    rw [if_pos he]
    split
    next hm2 => rw [hm2] at hm; cases hm
    next nd2 hm2 =>
      rw [hm2] at hm
      injection hm with hnd
      subst hnd
      dsimp only
      rcases Nat.lt_trichotomy m (nd2 + 1) with hlt | heq | hgt
      · rw [if_pos hlt, if_pos hlt]
        dsimp only
        rw [if_pos (le_refl (nd2 + 1))]
        rfl
      · subst heq
        simp
      · have h1 : ¬ nd2 + 1 > m := by omega
        have h2 : ¬ nd2 + 1 ≥ m := by omega
        have h3 : nd2 + 1 ≠ m := by omega
        rw [if_neg h1, if_neg h3]
        dsimp only
        rw [if_neg h2, if_neg h1]

lemma bellAux_cons (dataMap : DataMap) (box : Box) (m : Nat) (d : Int × Int)
    (ds : List (Int × Int)) :
    bellAux dataMap box m (d :: ds) =
      bellAux dataMap box (max m ((candidate dataMap box d).getD 0)) ds := rfl

lemma bellAux_ge (dataMap : DataMap) (box : Box) :
    ∀ (ds : List (Int × Int)) (m : Nat), m ≤ bellAux dataMap box m ds
  | [], m => le_refl m
  | d :: ds, m =>
    le_trans (le_max_left _ _) (bellAux_ge dataMap box ds (max m ((candidate dataMap box d).getD 0)))

lemma foldl_processDirection_some (dataMap : DataMap) (box : Box) :
    ∀ (ds : List (Int × Int)) (m : Nat) (gl : List (Int × Int)), 1 ≤ m →
    ds.foldl (processDirection dataMap box) (m, some gl) =
      (bellAux dataMap box m ds,
       some (if bellAux dataMap box m ds = m
             then gl ++ ds.filter (fun d => candidate dataMap box d = some m)
             else ds.filter (fun d =>
               candidate dataMap box d = some (bellAux dataMap box m ds)))) := by
  intro ds
  induction ds with
  | nil => intro m gl _; simp [bellAux]
  | cons d ds ih =>
    intro m gl hm
    rw [List.foldl_cons]
    cases hc : candidate dataMap box d with
    | none =>
      rw [processDirection_none hc, ih m gl hm, bellAux_cons]
      simp only [hc, Option.getD_none, Nat.max_zero]
      have hfilt : ∀ w : Nat, (List.filter (fun d2 => candidate dataMap box d2 = some w) (d :: ds))
          = List.filter (fun d2 => candidate dataMap box d2 = some w) ds := by
        intro w
        simp [List.filter_cons, hc]
      rw [hfilt, hfilt]
    | some v =>
      have hv1 : 1 ≤ v := candidate_pos hc
      have hM := bellAux_ge dataMap box ds
      rw [processDirection_some hc]
      rcases Nat.lt_trichotomy m v with hlt | heq | hgt
      · simp only [if_pos hlt]
        rw [ih v [d] hv1, bellAux_cons]
        simp only [hc, Option.getD_some, Nat.max_eq_right (le_of_lt hlt)]
        have hMv : v ≤ bellAux dataMap box v ds := hM v
        have hne : bellAux dataMap box v ds ≠ m := by omega
        rw [if_neg hne]
        by_cases hb : bellAux dataMap box v ds = v
        · rw [if_pos hb, hb]
          simp [List.filter_cons, hc]
        · rw [if_neg hb]
          have hvb : ¬ v = bellAux dataMap box v ds := fun hh => hb hh.symm
          simp only [List.filter_cons, hc, decide_eq_true_eq, Option.some_inj]
          rw [if_neg hvb]
      · subst heq
        have hmm2 : ¬ m > m := lt_irrefl m
        rw [if_neg hmm2, if_pos rfl]
        simp only [Option.map_some']
        rw [ih m (gl ++ [d]) hm, bellAux_cons]
        simp only [hc, Option.getD_some, Nat.max_self]
        by_cases hb : bellAux dataMap box m ds = m
        · rw [if_pos hb, if_pos hb]
          simp [List.filter_cons, hc, List.append_assoc]
        · rw [if_neg hb, if_neg hb]
          have : candidate dataMap box d ≠ some (bellAux dataMap box m ds) := by
            rw [hc]; intro hcontra; exact hb (Option.some_inj.mp hcontra).symm
          simp [List.filter_cons, this]
      · have h1 : ¬ v > m := by omega
        have h2 : v ≠ m := by omega
        rw [if_neg h1, if_neg h2, ih m gl hm, bellAux_cons]
        simp only [hc, Option.getD_some, Nat.max_eq_left (le_of_lt hgt)]
        have hMm : m ≤ bellAux dataMap box m ds := hM m
        have hne1 : candidate dataMap box d ≠ some m := by
          rw [hc]; intro hcontra; exact h2 (Option.some_inj.mp hcontra)
        by_cases hb : bellAux dataMap box m ds = m
        · rw [if_pos hb, if_pos hb]
          simp [List.filter_cons, hne1]
        · rw [if_neg hb, if_neg hb]
          have : candidate dataMap box d ≠ some (bellAux dataMap box m ds) := by
            rw [hc]; intro hcontra
            have := Option.some_inj.mp hcontra
            omega
          simp [List.filter_cons, this]

lemma foldl_processDirection_zero (dataMap : DataMap) (box : Box) :
    ∀ (ds : List (Int × Int)) (g0 : Option (List (Int × Int))),
    ds.foldl (processDirection dataMap box) (0, g0) =
      (bellAux dataMap box 0 ds,
       if bellAux dataMap box 0 ds = 0 then g0
       else some (ds.filter (fun d =>
         candidate dataMap box d = some (bellAux dataMap box 0 ds)))) := by
  intro ds
  induction ds with
  | nil => intro g0; simp [bellAux]
  | cons d ds ih =>
    intro g0
    rw [List.foldl_cons]
    cases hc : candidate dataMap box d with
    | none =>
      rw [processDirection_none hc, ih g0, bellAux_cons]
      simp only [hc, Option.getD_none, Nat.max_zero]
      by_cases hb : bellAux dataMap box 0 ds = 0
      · rw [if_pos hb, if_pos hb]
      · rw [if_neg hb, if_neg hb]
        simp [List.filter_cons, hc]
    | some v =>
      have hv1 : 1 ≤ v := candidate_pos hc
      rw [processDirection_some hc]
      have hpos : v > 0 := hv1
      rw [if_pos hpos, foldl_processDirection_some dataMap box ds v [d] hv1, bellAux_cons]
      simp only [hc, Option.getD_some, Nat.max_eq_right (Nat.zero_le v)]
      have hMv : v ≤ bellAux dataMap box v ds := bellAux_ge dataMap box ds v
      have hne : bellAux dataMap box v ds ≠ 0 := by omega
      rw [if_neg hne]
      by_cases hb : bellAux dataMap box v ds = v
      · rw [if_pos hb, hb]
        simp [List.filter_cons, hc]
      · rw [if_neg hb]
        have : candidate dataMap box d ≠ some (bellAux dataMap box v ds) := by
          rw [hc]; intro hcontra; exact hb (Option.some_inj.mp hcontra).symm
        simp [List.filter_cons, this]

/-- Full characterisation of `processBox`: it stores the Bellman value as
`maxDistance` and, when that value is positive, stores exactly the directions
achieving it (in the fixed direction order) as `goodDirections`; when the
value is 0 it leaves `goodDirections` untouched. -/
lemma processBox_spec (box : Box) (dataMap : DataMap) :
    processBox box dataMap =
      { box with
        maxDistance := some (bell dataMap box),
        goodDirections :=
          if bell dataMap box = 0 then box.goodDirections
          else some (DIRECTIONS.filter (fun d =>
            candidate dataMap box d = some (bell dataMap box))) } := by
  unfold processBox
  rw [foldl_processDirection_zero dataMap box DIRECTIONS box.goodDirections]
  rfl

/-! ### Generic fold-max helpers -/

lemma foldl_max_init_le {α β : Type} [LinearOrder α] (k : β → α) :
    ∀ (l : List β) (m : α), m ≤ l.foldl (fun a x => max a (k x)) m
  | [], m => le_refl m
  | x :: xs, m => by
    simp only [List.foldl_cons]
    exact le_trans (le_max_left _ _) (foldl_max_init_le k xs (max m (k x)))

lemma foldl_max_mem_le {α β : Type} [LinearOrder α] (k : β → α) :
    ∀ (l : List β) (m : α) (x : β), x ∈ l → k x ≤ l.foldl (fun a x => max a (k x)) m
  | [], _, x, hx => absurd hx (List.not_mem_nil x)
  | y :: ys, m, x, hx => by
    simp only [List.foldl_cons]
    rcases List.mem_cons.mp hx with h | h
    · subst h
      exact le_trans (le_max_right m (k x)) (foldl_max_init_le k ys _)
    · exact foldl_max_mem_le k ys _ x h

lemma foldl_max_attained {α β : Type} [LinearOrder α] (k : β → α) :
    ∀ (l : List β) (m : α),
      l.foldl (fun a x => max a (k x)) m = m ∨
        ∃ x ∈ l, k x = l.foldl (fun a x => max a (k x)) m
  | [], _ => Or.inl rfl
  | y :: ys, m => by
    simp only [List.foldl_cons]
    rcases foldl_max_attained k ys (max m (k y)) with h | ⟨x, hx, he⟩
    · rcases max_choice m (k y) with hm | hm
      · left; rw [h, hm]
      · right; exact ⟨y, List.mem_cons_self y ys, by rw [h, hm]⟩
    · right; exact ⟨x, List.mem_cons_of_mem y hx, he⟩

lemma le_bell_of_candidate {dataMap : DataMap} {box : Box} {d : Int × Int} {v : Nat}
    (hd : d ∈ DIRECTIONS) (h : candidate dataMap box d = some v) :
    v ≤ bell dataMap box := by
  have hle := foldl_max_mem_le (fun d2 => (candidate dataMap box d2).getD 0) DIRECTIONS 0 d hd
  simp only [h, Option.getD_some] at hle
  exact hle

lemma bell_attained {dataMap : DataMap} {box : Box} (h : 0 < bell dataMap box) :
    ∃ d ∈ DIRECTIONS, candidate dataMap box d = some (bell dataMap box) := by
  rcases foldl_max_attained (fun d2 => (candidate dataMap box d2).getD 0) DIRECTIONS 0
    with h0 | ⟨d, hd, he⟩
  · exfalso
    have : bell dataMap box = 0 := h0
    omega
  · refine ⟨d, hd, ?_⟩
    cases hc : candidate dataMap box d with
    | none =>
      exfalso
      rw [hc] at he
      simp only [Option.getD_none] at he
      have : bell dataMap box = 0 := by
        have hb : (0 : Nat) = bell dataMap box := he
        omega
      omega
    | some v =>
      rw [hc] at he
      simp only [Option.getD_some] at he
      exact congrArg some he

/-! ### Skeletons and the solved-box predicate -/

/-- The immutable part of a box: coordinates and elevation. -/
def skel (b : Box) : Int × Int × Int := (b.x, b.y, b.elevation)

/-- Two data maps with the same shape, coordinates and elevations cellwise
(they may differ in `maxDistance` and `goodDirections`). -/
def SameSkeleton (dm1 dm2 : DataMap) : Prop :=
  ∀ i j, (cellAt dm1 i j).map skel = (cellAt dm2 i j).map skel

lemma sameSkeleton_refl (dm : DataMap) : SameSkeleton dm dm := fun _ _ => rfl

lemma Coherent.of_sameSkeleton {dm1 dm2 : DataMap} (hc : Coherent dm1)
    (hs : SameSkeleton dm1 dm2) : Coherent dm2 := by
  intro i j b h
  have hss := hs i j
  rw [h] at hss
  rcases Option.map_eq_some'.mp hss with ⟨q, hq, hsk⟩
  have hx : q.x = b.x := congrArg (fun t => t.1) hsk
  have hy : q.y = b.y := congrArg (fun t => t.2.1) hsk
  rcases hc i j q hq with ⟨hqx, hqy⟩
  exact ⟨hx ▸ hqx, hy ▸ hqy⟩

/-- A box satisfying the Bellman equation of `processBox` with respect to a
data map: `maxDistance` is the maximum candidate distance, and
`goodDirections` is undefined when that maximum is 0, else exactly the
directions achieving it. -/
def SolvedBox (dm : DataMap) (box : Box) : Prop :=
  box.maxDistance = some (bell dm box) ∧
  box.goodDirections = (if bell dm box = 0 then none
    else some (DIRECTIONS.filter (fun d => candidate dm box d = some (bell dm box))))

/-- A box not yet touched by the solver. -/
def Unprocessed (box : Box) : Prop := box.maxDistance = none ∧ box.goodDirections = none

/-! ### Updating one cell -/

lemma cellAt_setBoxAt_same {dm : DataMap} {i j : Nat} {b : Box}
    (h : cellAt dm i j = some b) (nb : Box) :
    cellAt (setBoxAt dm (i : Int) (j : Int) nb) i j = some nb := by
  rcases Option.bind_eq_some.mp h with ⟨row, hj, hi⟩
  unfold setBoxAt
  rw [if_pos ⟨Int.natCast_nonneg i, Int.natCast_nonneg j⟩]
  simp only [Int.toNat_natCast]
  split
  next row2 hj2 =>
    rw [hj] at hj2
    injection hj2 with hrr
    subst hrr
    unfold cellAt
    rw [List.getElem?_set_self', hj]
    show (row.set i nb)[i]? = some nb
    rw [List.getElem?_set_self', hi]
    rfl
  next hnone => rw [hnone] at hj; cases hj

lemma cellAt_setBoxAt_other {dm : DataMap} {i j : Nat} (nb : Box) {i2 j2 : Nat}
    (h : ¬ (i2 = i ∧ j2 = j)) :
    cellAt (setBoxAt dm (i : Int) (j : Int) nb) i2 j2 = cellAt dm i2 j2 := by
  unfold setBoxAt
  rw [if_pos ⟨Int.natCast_nonneg i, Int.natCast_nonneg j⟩]
  simp only [Int.toNat_natCast]
  split
  next row hj =>
    by_cases hjj : j2 = j
    · subst hjj
      have hii : i2 ≠ i := fun hii2 => h ⟨hii2, rfl⟩
      unfold cellAt
      rw [List.getElem?_set_self', hj]
      show (row.set i nb)[i2]? = row[i2]?
      rw [List.getElem?_set_ne (fun hee => hii hee.symm)]
    · unfold cellAt
      rw [List.getElem?_set_ne (fun hee => hjj hee.symm)]
  next => rfl

lemma getBoxAt_setBoxAt_other {dm : DataMap} {i j : Nat} (nb : Box) {x y : Int}
    (h : ¬ (x = (i : Int) ∧ y = (j : Int))) :
    getBoxAt (setBoxAt dm (i : Int) (j : Int) nb) x y = getBoxAt dm x y := by
  by_cases hxy : 0 ≤ x ∧ 0 ≤ y
  · rw [getBoxAt_eq_cellAt _ hxy.1 hxy.2, getBoxAt_eq_cellAt _ hxy.1 hxy.2]
    apply cellAt_setBoxAt_other
    rintro ⟨h1, h2⟩
    apply h
    constructor
    · rw [← Int.toNat_of_nonneg hxy.1, h1]
    · rw [← Int.toNat_of_nonneg hxy.2, h2]
  · unfold getBoxAt
    rw [if_neg hxy, if_neg hxy]

lemma processBoxAt_eq {dm : DataMap} {i j : Nat} {b : Box} (h : cellAt dm i j = some b) :
    processBoxAt dm (i : Int) (j : Int) = setBoxAt dm (i : Int) (j : Int) (processBox b dm) := by
  unfold processBoxAt
  have hgb : getBoxAt dm (i : Int) (j : Int) = some b := by
    rw [getBoxAt_eq_cellAt _ (Int.natCast_nonneg i) (Int.natCast_nonneg j)]
    simpa using h
  rw [hgb]

lemma processBox_skel (box : Box) (dataMap : DataMap) :
    skel (processBox box dataMap) = skel box := rfl

/-! ### Congruence for candidate distances -/

lemma candidate_congr_pointwise {dm2 dm : DataMap} {b2 b : Box}
    (hx : b2.x = b.x) (hy : b2.y = b.y) (he : b2.elevation = b.elevation) {d : Int × Int}
    (hn : getBoxAt dm2 (b.x + d.1) (b.y + d.2) = getBoxAt dm (b.x + d.1) (b.y + d.2)) :
    candidate dm2 b2 d = candidate dm b d := by
  unfold candidate getNeighbourInDirection
  rw [hx, hy, he, hn]

lemma candidate_none_of_not_lt {dm : DataMap} {b : Box} {d : Int × Int} {n : Box}
    (hn : getNeighbourInDirection dm b d = some n) (hge : ¬ n.elevation < b.elevation) :
    candidate dm b d = none := by
  unfold candidate
  rw [hn, Option.some_bind, if_neg hge]

lemma bellAux_congr {dm2 dm : DataMap} {b2 b : Box} :
    ∀ (ds : List (Int × Int)), (∀ d ∈ ds, candidate dm2 b2 d = candidate dm b d) →
      ∀ m, bellAux dm2 b2 m ds = bellAux dm b m ds
  | [], _, _ => rfl
  | d :: ds, h, m => by
    rw [bellAux_cons, bellAux_cons, h d (List.mem_cons_self d ds)]
    exact bellAux_congr ds (fun d2 hd2 => h d2 (List.mem_cons_of_mem d hd2)) _

lemma bell_congr {dm2 dm : DataMap} {b2 b : Box}
    (h : ∀ d ∈ DIRECTIONS, candidate dm2 b2 d = candidate dm b d) :
    bell dm2 b2 = bell dm b :=
  bellAux_congr DIRECTIONS h 0

lemma SolvedBox.of_candidate_eq {dm2 dm : DataMap} {b : Box} (hs : SolvedBox dm b)
    (h : ∀ d ∈ DIRECTIONS, candidate dm2 b d = candidate dm b d) : SolvedBox dm2 b := by
  obtain ⟨h1, h2⟩ := hs
  have hb := bell_congr h
  constructor
  · rw [h1, hb]
  · rw [h2, hb]
    by_cases hz : bell dm b = 0
    · simp [hz]
    · rw [if_neg hz, if_neg hz]
      congr 1
      apply List.filter_congr
      intro d hd
      rw [h d hd]

/-! ### The solver invariant -/

lemma getBoxAt_mem {dm : DataMap} {x y : Int} {n : Box} (h : getBoxAt dm x y = some n) :
    n ∈ dm.flatten := by
  unfold getBoxAt at h
  split at h
  · exact cellAt_mem_flatten h
  · cases h

/-- A box whose coordinates coincide with those of a box in the list. -/
def PosIn (box : Box) (l : List Box) : Prop := ∃ q ∈ l, q.x = box.x ∧ q.y = box.y

lemma posIn_append_singleton {box q : Box} {l : List Box} :
    PosIn box (l ++ [q]) ↔ PosIn box l ∨ (q.x = box.x ∧ q.y = box.y) := by
  unfold PosIn
  constructor
  · rintro ⟨q2, hq2, hco⟩
    rcases List.mem_append.mp hq2 with hin | hin
    · exact Or.inl ⟨q2, hin, hco⟩
    · rcases List.mem_singleton.mp hin with rfl
      exact Or.inr hco
  · rintro (⟨q2, hq2, hco⟩ | hco)
    · exact ⟨q2, List.mem_append.mpr (Or.inl hq2), hco⟩
    · exact ⟨q, List.mem_append.mpr (Or.inr (List.mem_singleton.mpr rfl)), hco⟩

/-- Invariant maintained by the processing loop of `processMap`: the current
data map keeps the original skeleton, boxes whose position has already been
processed satisfy the Bellman characterisation of `processBox`, and the rest
are untouched. -/
def SolveInv (dm0 : DataMap) (done : List Box) (dm : DataMap) : Prop :=
  SameSkeleton dm0 dm ∧
  ∀ b ∈ dm.flatten, (PosIn b done → SolvedBox dm b) ∧ (¬ PosIn b done → Unprocessed b)

lemma directions_ne_zero : ∀ d ∈ DIRECTIONS, ¬ (d.1 = 0 ∧ d.2 = 0) := by decide

lemma solve_fold_inv {dm0 : DataMap} (hc0 : Coherent dm0) :
    ∀ (L done : List Box) (dm : DataMap),
      (done ++ L).Perm dm0.flatten →
      List.Sorted elevLe (done ++ L) →
      SolveInv dm0 done dm →
      SolveInv dm0 (done ++ L)
        (L.foldl (fun d box => processBoxAt d box.x box.y) dm)
  | [], done, dm, _, _, hinv => by
    rw [List.append_nil]
    exact hinv
  | b :: L, done, dm, hperm, hsort, hinv => by
    obtain ⟨hskel, hboxes⟩ := hinv
    have hcdm : Coherent dm := hc0.of_sameSkeleton hskel
    have hbmem0 : b ∈ dm0.flatten := hperm.mem_iff.mp (by simp)
    obtain ⟨hbx0, hby0, hget0⟩ := hc0.getBoxAt_self hbmem0
    have hb0cell : cellAt dm0 b.x.toNat b.y.toNat = some b := by
      rw [getBoxAt_eq_cellAt dm0 hbx0 hby0] at hget0
      exact hget0
    have hskelb := hskel b.x.toNat b.y.toNat
    rw [hb0cell] at hskelb
    simp only [Option.map_some'] at hskelb
    rcases Option.map_eq_some'.mp hskelb.symm with ⟨bc, hbc, hbcskel⟩
    have hbcx : bc.x = b.x := congrArg (fun t => t.1) hbcskel
    have hbcy : bc.y = b.y := congrArg (fun t => t.2.1) hbcskel
    have hbce : bc.elevation = b.elevation := congrArg (fun t => t.2.2) hbcskel
    have hnodup : (done ++ b :: L).Nodup := hperm.nodup_iff.mpr hc0.nodup_flatten
    have hposb : ¬ PosIn b done := by
      rintro ⟨q, hq, hqx, hqy⟩
      have hqmem0 : q ∈ dm0.flatten := hperm.mem_iff.mp (by simp [hq])
      obtain ⟨_, _, hgetq⟩ := hc0.getBoxAt_self hqmem0
      rw [hqx, hqy, hget0] at hgetq
      injection hgetq with hqb
      have hbdone : b ∈ done := hqb ▸ hq
      exact (List.nodup_append.mp hnodup).2.2 hbdone (List.mem_cons_self b L)
    have hbcmem : bc ∈ dm.flatten := cellAt_mem_flatten hbc
    have hposbc : ¬ PosIn bc done := by
      rintro ⟨q, hq, h1, h2⟩
      exact hposb ⟨q, hq, by rw [h1, hbcx], by rw [h2, hbcy]⟩
    have hbcunproc : Unprocessed bc := (hboxes bc hbcmem).2 hposbc
    -- elevation comparison for already-processed boxes
    have hdone_le : ∀ q ∈ done, q.elevation ≤ b.elevation := by
      intro q hq
      exact (List.pairwise_append.mp hsort).2.2 q hq b (List.mem_cons_self b L)
    have hdone_skel : ∀ b2 ∈ dm.flatten, PosIn b2 done → b2.elevation ≤ b.elevation := by
      rintro b2 hb2 ⟨q, hq, hqx, hqy⟩
      have hqmem0 : q ∈ dm0.flatten := hperm.mem_iff.mp (by simp [hq])
      obtain ⟨hqx0, hqy0, hgetq⟩ := hc0.getBoxAt_self hqmem0
      have hq0cell : cellAt dm0 q.x.toNat q.y.toNat = some q := by
        rw [getBoxAt_eq_cellAt dm0 hqx0 hqy0] at hgetq
        exact hgetq
      obtain ⟨hb2x, hb2y, hgetb2⟩ := hcdm.getBoxAt_self hb2
      have hb2cell : cellAt dm b2.x.toNat b2.y.toNat = some b2 := by
        rw [getBoxAt_eq_cellAt dm hb2x hb2y] at hgetb2
        exact hgetb2
      have hxx : q.x.toNat = b2.x.toNat := by rw [hqx]
      have hyy : q.y.toNat = b2.y.toNat := by rw [hqy]
      have hskelq := hskel q.x.toNat q.y.toNat
      rw [hq0cell, hxx, hyy, hb2cell] at hskelq
      simp only [Option.map_some'] at hskelq
      have he2 : q.elevation = b2.elevation :=
        congrArg (fun t : Int × Int × Int => t.2.2) (Option.some_inj.mp hskelq)
      rw [← he2]
      exact hdone_le q hq
    -- the update step
    have hstep : processBoxAt dm b.x b.y =
        setBoxAt dm ((b.x.toNat : Nat) : Int) ((b.y.toNat : Nat) : Int) (processBox bc dm) := by
      conv_lhs => rw [← Int.toNat_of_nonneg hbx0, ← Int.toNat_of_nonneg hby0]
      exact processBoxAt_eq hbc
    have hxcast : ((b.x.toNat : Nat) : Int) = b.x := Int.toNat_of_nonneg hbx0
    have hycast : ((b.y.toNat : Nat) : Int) = b.y := Int.toNat_of_nonneg hby0
    set nb2 := processBox bc dm with hnb2
    set dm2 := setBoxAt dm ((b.x.toNat : Nat) : Int) ((b.y.toNat : Nat) : Int) nb2 with hdm2
    have hcell_same : cellAt dm2 b.x.toNat b.y.toNat = some nb2 := cellAt_setBoxAt_same hbc nb2
    have hcell_other : ∀ i2 j2, ¬ (i2 = b.x.toNat ∧ j2 = b.y.toNat) →
        cellAt dm2 i2 j2 = cellAt dm i2 j2 := fun i2 j2 hne => cellAt_setBoxAt_other nb2 hne
    have hget_other : ∀ x y : Int, ¬ (x = b.x ∧ y = b.y) →
        getBoxAt dm2 x y = getBoxAt dm x y := by
      intro x y hne
      apply getBoxAt_setBoxAt_other
      rw [hxcast, hycast]
      exact hne
    have hnb2skel : skel nb2 = skel b := by rw [hnb2, processBox_skel bc dm, hbcskel]
    have hskel2 : SameSkeleton dm0 dm2 := by
      intro i j
      by_cases hp : i = b.x.toNat ∧ j = b.y.toNat
      · obtain ⟨rfl, rfl⟩ := hp
        rw [hb0cell, hcell_same]
        simp only [Option.map_some']
        rw [hnb2skel]
      · rw [hcell_other i j hp]
        exact hskel i j
    have hcdm2 : Coherent dm2 := hc0.of_sameSkeleton hskel2
    -- candidates of the new box agree between dm2 and dm
    have hcand_nb : ∀ d ∈ DIRECTIONS, candidate dm2 nb2 d = candidate dm bc d := by
      intro d hd
      have hxeq : nb2.x = bc.x := rfl
      have hyeq : nb2.y = bc.y := rfl
      have heeq : nb2.elevation = bc.elevation := rfl
      apply candidate_congr_pointwise hxeq hyeq heeq
      apply hget_other
      rintro ⟨h1, h2⟩
      apply directions_ne_zero d hd
      constructor
      · have : bc.x + d.1 = bc.x := by rw [h1, ← hbcx]
        omega
      · have : bc.y + d.2 = bc.y := by rw [h2, ← hbcy]
        omega
    have hsolved_nb2 : SolvedBox dm2 nb2 := by
      have hbell : bell dm2 nb2 = bell dm bc := bell_congr hcand_nb
      have hspec := processBox_spec bc dm
      constructor
      · show nb2.maxDistance = some (bell dm2 nb2)
        rw [hbell, hnb2, hspec]
      · show nb2.goodDirections = (if bell dm2 nb2 = 0 then none
          else some (DIRECTIONS.filter (fun d =>
            candidate dm2 nb2 d = some (bell dm2 nb2))))
        have hfe : (DIRECTIONS.filter (fun d => candidate dm2 nb2 d = some (bell dm2 nb2)))
            = (DIRECTIONS.filter (fun d => candidate dm bc d = some (bell dm bc))) :=
          List.filter_congr (fun d hd => by rw [hcand_nb d hd, hbell])
        rw [hfe, hbell, hnb2, hspec]
        show (if bell dm bc = 0 then bc.goodDirections else _) = _
        rw [hbcunproc.2]
    -- candidates of already-processed boxes are untouched
    have hcand_old : ∀ b2 ∈ dm.flatten, PosIn b2 done →
        ∀ d ∈ DIRECTIONS, candidate dm2 b2 d = candidate dm b2 d := by
      intro b2 hb2 hpos d hd
      by_cases hat : b2.x + d.1 = b.x ∧ b2.y + d.2 = b.y
      · -- the direction points at the freshly processed box; both candidates
        -- are none because that box is not downhill from b2
        have hgd : getBoxAt dm b2.x b2.y = some b2 := (hcdm.getBoxAt_self hb2).2.2
        have hnin : getNeighbourInDirection dm b2 d = some bc := by
          unfold getNeighbourInDirection
          rw [hat.1, hat.2, ← hxcast, ← hycast,
            getBoxAt_eq_cellAt dm (Int.natCast_nonneg _) (Int.natCast_nonneg _),
            Int.toNat_natCast, Int.toNat_natCast]
          exact hbc
        have hnin2 : getNeighbourInDirection dm2 b2 d = some nb2 := by
          unfold getNeighbourInDirection
          rw [hat.1, hat.2, ← hxcast, ← hycast,
            getBoxAt_eq_cellAt dm2 (Int.natCast_nonneg _) (Int.natCast_nonneg _),
            Int.toNat_natCast, Int.toNat_natCast]
          exact hcell_same
        have hlow : b2.elevation ≤ b.elevation := hdone_skel b2 hb2 hpos
        have hc1 : candidate dm b2 d = none := by
          apply candidate_none_of_not_lt hnin
          rw [hbce]
          omega
        have hc2 : candidate dm2 b2 d = none := by
          apply candidate_none_of_not_lt hnin2
          have : nb2.elevation = bc.elevation := rfl
          rw [this, hbce]
          omega
        rw [hc1, hc2]
      · exact candidate_congr_pointwise rfl rfl rfl (hget_other _ _ hat)
    -- the invariant after this step
    have hinv2 : SolveInv dm0 (done ++ [b]) dm2 := by
      refine ⟨hskel2, ?_⟩
      intro b2 hb2
      rcases mem_flatten_cellAt hb2 with ⟨i2, j2, hb2cell⟩
      by_cases hp : i2 = b.x.toNat ∧ j2 = b.y.toNat
      · obtain ⟨rfl, rfl⟩ := hp
        rw [hcell_same] at hb2cell
        injection hb2cell with hb2eq
        subst hb2eq
        constructor
        · intro _
          exact hsolved_nb2
        · intro hnp
          exfalso
          apply hnp
          apply posIn_append_singleton.mpr
          right
          constructor
          · show b.x = nb2.x
            rw [show nb2.x = bc.x from rfl, hbcx]
          · show b.y = nb2.y
            rw [show nb2.y = bc.y from rfl, hbcy]
      · rw [hcell_other i2 j2 hp] at hb2cell
        have hb2dm : b2 ∈ dm.flatten := cellAt_mem_flatten hb2cell
        have hb2pos : b2.x = (i2 : Int) ∧ b2.y = (j2 : Int) := hcdm i2 j2 b2 hb2cell
        have hnotb : ¬ (b.x = b2.x ∧ b.y = b2.y) := by
          rintro ⟨h1, h2⟩
          apply hp
          constructor
          · have h3 : ((i2 : Nat) : Int) = ((b.x.toNat : Nat) : Int) := by
              rw [← hb2pos.1, ← h1, hxcast]
            exact_mod_cast h3
          · have h3 : ((j2 : Nat) : Int) = ((b.y.toNat : Nat) : Int) := by
              rw [← hb2pos.2, ← h2, hycast]
            exact_mod_cast h3
        constructor
        · intro hpos
          rcases posIn_append_singleton.mp hpos with hpos | hco
          · exact ((hboxes b2 hb2dm).1 hpos).of_candidate_eq (hcand_old b2 hb2dm hpos)
          · exact absurd hco hnotb
        · intro hnpos
          have hnd : ¬ PosIn b2 done := fun hh => hnpos (posIn_append_singleton.mpr (Or.inl hh))
          exact (hboxes b2 hb2dm).2 hnd
    -- fold one step and recurse
    have hfold : (b :: L).foldl (fun d box => processBoxAt d box.x box.y) dm =
        L.foldl (fun d box => processBoxAt d box.x box.y) dm2 := by
      rw [List.foldl_cons, hstep]
    rw [hfold, show done ++ b :: L = (done ++ [b]) ++ L by simp]
    exact solve_fold_inv hc0 L (done ++ [b]) dm2
      (by rw [List.append_assoc, List.singleton_append]; exact hperm)
      (by rw [List.append_assoc, List.singleton_append]; exact hsort)
      hinv2

/-- Main solver theorem: the solved data map keeps the input skeleton, is
coherent, and every one of its boxes satisfies the Bellman characterisation
of `processBox` with respect to the final map. -/
lemma solveDataMap_spec (m : List (List Int)) :
    SameSkeleton (createDataMap m) (solveDataMap m) ∧
    Coherent (solveDataMap m) ∧
    ∀ bx ∈ (solveDataMap m).flatten, SolvedBox (solveDataMap m) bx := by
  have hc0 := coherent_createDataMap m
  have hperm0 : (([] : List Box) ++ List.insertionSort elevLe (createDataMap m).flatten).Perm
      (createDataMap m).flatten := by
    simpa using List.perm_insertionSort elevLe (createDataMap m).flatten
  have hsort0 : List.Sorted elevLe
      (([] : List Box) ++ List.insertionSort elevLe (createDataMap m).flatten) := by
    simpa using List.sorted_insertionSort elevLe (createDataMap m).flatten
  have hinv0 : SolveInv (createDataMap m) [] (createDataMap m) := by
    refine ⟨sameSkeleton_refl _, ?_⟩
    intro b hb
    constructor
    · rintro ⟨q, hq, _⟩
      cases hq
    · intro _
      exact createDataMap_unprocessed m b hb
  have h := solve_fold_inv hc0 (List.insertionSort elevLe (createDataMap m).flatten) []
    (createDataMap m) hperm0 hsort0 hinv0
  rw [List.nil_append] at h
  have hsolve : solveDataMap m = (List.insertionSort elevLe (createDataMap m).flatten).foldl
      (fun d box => processBoxAt d box.x box.y) (createDataMap m) := rfl
  rw [← hsolve] at h
  obtain ⟨hskel, hboxes⟩ := h
  refine ⟨hskel, hc0.of_sameSkeleton hskel, ?_⟩
  intro bx hbx
  apply (hboxes bx hbx).1
  rcases mem_flatten_cellAt hbx with ⟨i, j, hij⟩
  have hpos := (hc0.of_sameSkeleton hskel) i j bx hij
  have hsk := hskel i j
  rw [hij] at hsk
  rcases Option.map_eq_some'.mp hsk with ⟨q0, hq0, hq0skel⟩
  refine ⟨q0, ?_, ?_, ?_⟩
  · rw [List.mem_insertionSort]
    exact cellAt_mem_flatten hq0
  · rw [(hc0 i j q0 hq0).1, hpos.1]
  · rw [(hc0 i j q0 hq0).2, hpos.2]

/-- Case split on a solved box: either it is terminal (`maxDistance` 0, no
good directions) or it has a positive `maxDistance` and a non-empty list of
good directions, namely the directions achieving the Bellman value. -/
lemma SolvedBox.cases {dm : DataMap} {bx : Box} (hs : SolvedBox dm bx) :
    (bx.maxDistance = some 0 ∧ bx.goodDirections = none ∧ bell dm bx = 0) ∨
    (∃ gdl, bx.goodDirections = some gdl ∧ bx.maxDistance = some (bell dm bx) ∧
      0 < bell dm bx ∧
      gdl = DIRECTIONS.filter (fun d => candidate dm bx d = some (bell dm bx)) ∧
      gdl ≠ []) := by
  obtain ⟨h1, h2⟩ := hs
  by_cases hz : bell dm bx = 0
  · left
    exact ⟨hz ▸ h1, by rw [h2, if_pos hz], hz⟩
  · right
    refine ⟨_, by rw [h2, if_neg hz], h1, Nat.pos_of_ne_zero hz, rfl, ?_⟩
    rcases bell_attained (Nat.pos_of_ne_zero hz) with ⟨d, hd, hcd⟩
    intro hnil
    have hmem : d ∈ DIRECTIONS.filter (fun d2 => candidate dm bx d2 = some (bell dm bx)) :=
      List.mem_filter.mpr ⟨hd, by simp [hcd]⟩
    rw [hnil] at hmem
    cases hmem

/-! ### Properties of the enumerated paths -/

/-- Claim-facing step relation: grid-adjacent (4-neighbourhood) and strictly
descending. -/
def descStep (a c : Box) : Prop :=
  ((a.x - c.x).natAbs + (a.y - c.y).natAbs = 1) ∧ c.elevation < a.elevation

/-- Code-facing step relation: the second box is the neighbour of the first
in one of the four directions and is strictly lower. -/
def descStepIn (dm : DataMap) (a c : Box) : Prop :=
  (∃ d ∈ DIRECTIONS, getNeighbourInDirection dm a d = some c) ∧ c.elevation < a.elevation

lemma getNeighbour_mem {dm : DataMap} {bx : Box} {dir : Int × Int} {n : Box}
    (h : getNeighbourInDirection dm bx dir = some n) : n ∈ dm.flatten :=
  getBoxAt_mem h

lemma getNeighbour_coords {dm : DataMap} (hc : Coherent dm) {a n : Box} {d : Int × Int}
    (h : getNeighbourInDirection dm a d = some n) :
    n.x = a.x + d.1 ∧ n.y = a.y + d.2 := by
  unfold getNeighbourInDirection getBoxAt at h
  split at h
  next hxy =>
    have hco := hc _ _ _ h
    constructor
    · rw [hco.1, Int.toNat_of_nonneg hxy.1]
    · rw [hco.2, Int.toNat_of_nonneg hxy.2]
  next => cases h

lemma adjacent_of_dir {dm : DataMap} (hc : Coherent dm) {a n : Box} {d : Int × Int}
    (hd : d ∈ DIRECTIONS) (h : getNeighbourInDirection dm a d = some n) :
    (a.x - n.x).natAbs + (a.y - n.y).natAbs = 1 := by
  rcases getNeighbour_coords hc h with ⟨h1, h2⟩
  rw [h1, h2]
  have e1 : a.x - (a.x + d.1) = -d.1 := by ring
  have e2 : a.y - (a.y + d.2) = -d.2 := by ring
  rw [e1, e2]
  simp only [DIRECTIONS, List.mem_cons, List.mem_singleton] at hd
  rcases hd with rfl | rfl | rfl | rfl | h0
  · rfl
  · rfl
  · rfl
  · rfl
  · cases h0

/-- Soundness of the part_000 path enumeration over a solved grid: every
returned path starts at the given box, has cell count `maxDistance + 1`,
steps through strictly-descending grid neighbours, and stays inside the
grid.  This holds for every fuel value (short fuel only omits paths). -/
lemma getGoodPathsFromBox_spec {dm : DataMap} (hc : Coherent dm)
    (hall : ∀ bx ∈ dm.flatten, SolvedBox dm bx) :
    ∀ (fuel : Nat) (bx : Box), bx ∈ dm.flatten →
      ∀ p ∈ getGoodPathsFromBox fuel dm bx,
        ∃ d, bx.maxDistance = some d ∧ p.length = d + 1 ∧ p.head? = some bx ∧
          List.Chain' (fun a c => descStepIn dm a c ∧ descStep a c) p ∧
          ∀ q ∈ p, q ∈ dm.flatten := by
  intro fuel
  induction fuel with
  | zero =>
    intro bx _ p hp
    simp [getGoodPathsFromBox] at hp
  | succ fuel ih =>
    intro bx hbx p hp
    rcases (hall bx hbx).cases with ⟨hmd, hgd, _⟩ | ⟨gdl, hgd, hmd, hpos, hfil, _⟩
    · unfold getGoodPathsFromBox at hp
      rw [hgd] at hp
      simp only [List.mem_singleton] at hp
      subst hp
      refine ⟨0, hmd, rfl, rfl, List.chain'_singleton bx, ?_⟩
      intro q hq
      rw [List.mem_singleton] at hq
      subst hq
      exact hbx
    · unfold getGoodPathsFromBox at hp
      rw [hgd] at hp
      rcases List.mem_flatten.mp hp with ⟨pl, hpl, hppl⟩
      rcases List.mem_map.mp hpl with ⟨dir, hdir, hplval⟩
      have hdirf : candidate dm bx dir = some (bell dm bx) ∧ dir ∈ DIRECTIONS := by
        rw [hfil] at hdir
        have hmf := List.mem_filter.mp hdir
        exact ⟨by simpa using hmf.2, hmf.1⟩
      rcases candidate_eq_some_iff.mp hdirf.1 with ⟨n, hn, hlt, nd, hnd, hbell⟩
      have hplred : pl = (getGoodPathsFromBox fuel dm n).map (fun q => bx :: q) := by
        rw [← hplval, hn]
      have hnmem : n ∈ dm.flatten := getNeighbour_mem hn
      rw [hplred] at hppl
      rcases List.mem_map.mp hppl with ⟨ptail, hptail, hpeq⟩
      rcases ih n hnmem ptail hptail with ⟨dn, hdn, hlen, hhead, hchain, hmem⟩
      have hdneq : dn = nd := by
        rw [hnd] at hdn
        injection hdn with hh
        exact hh.symm
      subst hdneq
      refine ⟨bell dm bx, hmd, ?_, ?_, ?_, ?_⟩
      · rw [← hpeq]
        simp only [List.length_cons, hlen]
        omega
      · rw [← hpeq]
        rfl
      · rw [← hpeq]
        cases ptail with
        | nil => simp at hhead
        | cons ph pt =>
          have hpn : ph = n := by
            simp only [List.head?_cons, Option.some_inj] at hhead
            exact hhead
          subst hpn
          apply List.chain'_cons.mpr
          exact ⟨⟨⟨⟨dir, hdirf.2, hn⟩, hlt⟩, ⟨adjacent_of_dir hc hdirf.2 hn, hlt⟩⟩, hchain⟩
      · intro q hq
        rw [← hpeq] at hq
        rcases List.mem_cons.mp hq with rfl | hq2
        · exact hbx
        · exact hmem q hq2

/-- Completeness of the enumeration: with fuel exceeding the box distance,
at least one path is returned. -/
lemma getGoodPathsFromBox_ne_nil {dm : DataMap}
    (hall : ∀ bx ∈ dm.flatten, SolvedBox dm bx) :
    ∀ (fuel : Nat) (bx : Box) (d : Nat), bx ∈ dm.flatten → bx.maxDistance = some d →
      d < fuel → getGoodPathsFromBox fuel dm bx ≠ [] := by
  intro fuel
  induction fuel with
  | zero =>
    intro bx d _ _ hlt
    omega
  | succ fuel ih =>
    intro bx d hbx hmd _
    rcases (hall bx hbx).cases with ⟨_, hgd, _⟩ | ⟨gdl, hgd, hmd2, _, hfil, hne⟩
    · unfold getGoodPathsFromBox
      rw [hgd]
      simp
    · have hd : d = bell dm bx := by
        rw [hmd2] at hmd
        injection hmd with hh
        exact hh.symm
      rcases List.exists_mem_of_ne_nil gdl hne with ⟨dir, hdir⟩
      have hdirf : candidate dm bx dir = some (bell dm bx) := by
        rw [hfil] at hdir
        simpa using (List.mem_filter.mp hdir).2
      rcases candidate_eq_some_iff.mp hdirf with ⟨n, hn, _, nd, hnd, hbell⟩
      have hnmem : n ∈ dm.flatten := getNeighbour_mem hn
      have hrec : getGoodPathsFromBox fuel dm n ≠ [] := by
        apply ih n nd hnmem hnd
        omega
      unfold getGoodPathsFromBox
      rw [hgd]
      intro hflat
      rw [List.flatten_eq_nil_iff] at hflat
      have hin : (getGoodPathsFromBox fuel dm n).map (fun q => bx :: q) = [] := by
        apply hflat
        apply List.mem_map.mpr
        refine ⟨dir, hdir, ?_⟩
        rw [hn]
      rcases List.exists_mem_of_ne_nil _ hrec with ⟨pt, hpt⟩
      have : (bx :: pt) ∈ ([] : List (List Box)) := by
        rw [← hin]
        exact List.mem_map.mpr ⟨pt, hpt, rfl⟩
      cases this

/-! ### Characterisation of findBestStartPoints -/

/-- The grid-wide maximum `maxDistance`, scanning in row order with an
undefined `maxDistance` read as 0. -/
def maxMaxDistance (dataMap : DataMap) : Nat :=
  dataMap.flatten.foldl (fun a bx => max a (bx.maxDistance.getD 0)) 0

/-- The `maxDistance` of a box as the integer compared by the scan. -/
def mdInt (bx : Box) : Int := ((bx.maxDistance.getD 0 : Nat) : Int)

lemma fbspStep_some {bx : Box} {d : Nat} (h : bx.maxDistance = some d)
    (m : Int) (gl : List Box) :
    fbspStep (m, gl) bx =
      if (d : Int) > m then ((d : Int), [bx])
      else if (d : Int) = m then (m, gl ++ [bx])
      else (m, gl) := by
  unfold fbspStep
  rw [h]
  dsimp only
  rcases lt_trichotomy m (d : Int) with hlt | heq | hgt
  · rw [if_pos hlt, if_pos hlt, if_pos (le_of_lt hlt)]
    simp
  · rw [← heq]
    simp
  · have h1 : ¬ (d : Int) > m := by omega
    have h2 : ¬ (d : Int) ≥ m := by omega
    have h3 : ¬ (d : Int) = m := by omega
    rw [if_neg h1, if_neg h1, if_neg h3, if_neg h2]

lemma mdInt_eq {bx : Box} {d : Nat} (h : bx.maxDistance = some d) : mdInt bx = (d : Int) := by
  unfold mdInt
  rw [h]
  rfl

lemma foldl_fbspStep :
    ∀ (l : List Box), (∀ b2 ∈ l, (b2.maxDistance).isSome = true) →
    ∀ (m : Int) (gl : List Box),
    l.foldl fbspStep (m, gl) =
      (l.foldl (fun a b2 => max a (mdInt b2)) m,
       if l.foldl (fun a b2 => max a (mdInt b2)) m = m
       then gl ++ l.filter (fun b2 => mdInt b2 = m)
       else l.filter (fun b2 => mdInt b2 = l.foldl (fun a b2 => max a (mdInt b2)) m))
  | [], _, m, gl => by simp
  | b :: l, hall, m, gl => by
    have hb := hall b (List.mem_cons_self b l)
    rcases Option.isSome_iff_exists.mp hb with ⟨d, hd⟩
    have hrest : ∀ b2 ∈ l, (b2.maxDistance).isSome = true :=
      fun b2 h2 => hall b2 (List.mem_cons_of_mem b h2)
    have hMge := foldl_max_init_le mdInt l
    simp only [List.foldl_cons, fbspStep_some hd, mdInt_eq hd]
    rcases lt_trichotomy m (d : Int) with hlt | heq | hgt
    · rw [if_pos hlt, foldl_fbspStep l hrest (d : Int) [b], max_eq_right (le_of_lt hlt)]
      have hMd := hMge (d : Int)
      have hne : l.foldl (fun a b2 => max a (mdInt b2)) (d : Int) ≠ m := by omega
      rw [if_neg hne]
      by_cases hb2 : l.foldl (fun a b2 => max a (mdInt b2)) (d : Int) = (d : Int)
      · rw [if_pos hb2, hb2]
        simp [List.filter_cons, mdInt_eq hd]
      · rw [if_neg hb2]
        have hbne : ¬ (mdInt b = l.foldl (fun a b2 => max a (mdInt b2)) (d : Int)) := by
          rw [mdInt_eq hd]
          intro hcontra
          exact hb2 hcontra.symm
        simp [List.filter_cons, hbne]
    · rw [← heq, if_neg (lt_irrefl m), if_pos rfl, foldl_fbspStep l hrest m (gl ++ [b]), max_self]
      have hmb : mdInt b = m := by
        rw [mdInt_eq hd]
        exact heq.symm
      by_cases hb2 : l.foldl (fun a b2 => max a (mdInt b2)) m = m
      · rw [if_pos hb2, if_pos hb2]
        simp [List.filter_cons, hmb, List.append_assoc]
      · rw [if_neg hb2, if_neg hb2]
        have hbne : ¬ (mdInt b = l.foldl (fun a b2 => max a (mdInt b2)) m) := by
          rw [hmb]
          intro hcontra
          exact hb2 hcontra.symm
        simp [List.filter_cons, hbne]
    · have h1 : ¬ (d : Int) > m := by omega
      have h3 : ¬ (d : Int) = m := by omega
      rw [if_neg h1, if_neg h3, foldl_fbspStep l hrest m gl, max_eq_left (le_of_lt hgt)]
      have hMm := hMge m
      have hbne : ¬ (mdInt b = m) := by
        rw [mdInt_eq hd]
        exact h3
      by_cases hb2 : l.foldl (fun a b2 => max a (mdInt b2)) m = m
      · rw [if_pos hb2, if_pos hb2]
        simp [List.filter_cons, hbne]
      · rw [if_neg hb2, if_neg hb2]
        have hbne2 : ¬ (mdInt b = l.foldl (fun a b2 => max a (mdInt b2)) m) := by
          rw [mdInt_eq hd]
          intro hcontra
          omega
        simp [List.filter_cons, hbne2]

lemma int_nat_max_fold :
    ∀ (l : List Box) (mN : Nat),
      l.foldl (fun a b2 => max a (mdInt b2)) ((mN : Nat) : Int) =
        ((l.foldl (fun a b2 => max a (b2.maxDistance.getD 0)) mN : Nat) : Int)
  | [], mN => rfl
  | b :: l, mN => by
    simp only [List.foldl_cons]
    have hcast : max ((mN : Nat) : Int) (mdInt b) =
        (((max mN (b.maxDistance.getD 0) : Nat) : Nat) : Int) := by
      unfold mdInt
      push_cast
      rfl
    rw [hcast, int_nat_max_fold l (max mN (b.maxDistance.getD 0))]

lemma int_fold_neg_one {l : List Box} (h : l ≠ []) :
    l.foldl (fun a b2 => max a (mdInt b2)) (-1) =
      ((l.foldl (fun a b2 => max a (b2.maxDistance.getD 0)) 0 : Nat) : Int) := by
  cases l with
  | nil => cases h rfl
  | cons b l =>
    simp only [List.foldl_cons]
    have h1 : max (-1 : Int) (mdInt b) = mdInt b := by
      apply max_eq_right
      unfold mdInt
      omega
    have h2 : max (0 : Nat) (b.maxDistance.getD 0) = b.maxDistance.getD 0 :=
      Nat.zero_max _
    rw [h1, h2]
    have hm : mdInt b = ((b.maxDistance.getD 0 : Nat) : Int) := rfl
    rw [hm, int_nat_max_fold l _]

/-- On a data map whose boxes all have a defined `maxDistance` and at least
one cell, `findBestStartPoints` returns exactly the boxes achieving the
grid-wide maximum, in scan order, and this list is non-empty. -/
lemma findBestStartPoints_spec {dm : DataMap}
    (hall : ∀ bx ∈ dm.flatten, (bx.maxDistance).isSome = true) (hne : dm.flatten ≠ []) :
    findBestStartPoints dm =
      dm.flatten.filter (fun bx => bx.maxDistance = some (maxMaxDistance dm)) ∧
    findBestStartPoints dm ≠ [] := by
  have hchar := foldl_fbspStep dm.flatten hall (-1) []
  have hM := int_fold_neg_one hne
  have hMne : dm.flatten.foldl (fun a b2 => max a (mdInt b2)) (-1) ≠ -1 := by
    rw [hM]
    omega
  have hfilt : dm.flatten.filter
        (fun b2 => mdInt b2 = dm.flatten.foldl (fun a b2 => max a (mdInt b2)) (-1)) =
      dm.flatten.filter (fun bx => bx.maxDistance = some (maxMaxDistance dm)) := by
    apply List.filter_congr
    intro bx hbx
    rcases Option.isSome_iff_exists.mp (hall bx hbx) with ⟨dx, hdx⟩
    rw [mdInt_eq hdx, hM, hdx]
    simp only [decide_eq_decide]
    constructor
    · intro hcast
      have : dx = maxMaxDistance dm := by exact_mod_cast hcast
      rw [this]
    · intro hsome
      injection hsome with hh
      rw [hh]
      rfl
  have hsel : findBestStartPoints dm =
      dm.flatten.filter (fun bx => bx.maxDistance = some (maxMaxDistance dm)) := by
    unfold findBestStartPoints
    rw [hchar, if_neg hMne]
    exact hfilt
  refine ⟨hsel, ?_⟩
  -- the maximum is attained, so the filter is non-empty
  rcases foldl_max_attained (fun b2 => b2.maxDistance.getD 0) dm.flatten 0 with h0 | ⟨bx, hbx, he⟩
  · -- the fold equals the initial 0: every box has distance 0, the head attains it
    rcases List.exists_mem_of_ne_nil dm.flatten hne with ⟨bx, hbx⟩
    have hle2 : bx.maxDistance.getD 0 ≤ maxMaxDistance dm :=
      foldl_max_mem_le (fun b2 : Box => b2.maxDistance.getD 0) dm.flatten 0 bx hbx
    have h00 : maxMaxDistance dm = 0 := h0
    have hval : bx.maxDistance.getD 0 = maxMaxDistance dm := by omega
    rcases Option.isSome_iff_exists.mp (hall bx hbx) with ⟨dx, hdx⟩
    have : bx.maxDistance = some (maxMaxDistance dm) := by
      rw [hdx]
      rw [hdx] at hval
      simp only [Option.getD_some] at hval
      rw [hval]
    rw [hsel]
    intro hnil
    have hmem : bx ∈ dm.flatten.filter
        (fun bx => bx.maxDistance = some (maxMaxDistance dm)) :=
      List.mem_filter.mpr ⟨hbx, by simp [this]⟩
    rw [hnil] at hmem
    cases hmem
  · rcases Option.isSome_iff_exists.mp (hall bx hbx) with ⟨dx, hdx⟩
    have he2 : bx.maxDistance.getD 0 = maxMaxDistance dm := he
    have hsome : bx.maxDistance = some (maxMaxDistance dm) := by
      rw [hdx]
      rw [hdx] at he2
      simp only [Option.getD_some] at he2
      rw [he2]
    rw [hsel]
    intro hnil
    have hmem : bx ∈ dm.flatten.filter
        (fun bx => bx.maxDistance = some (maxMaxDistance dm)) :=
      List.mem_filter.mpr ⟨hbx, by simp [hsome]⟩
    rw [hnil] at hmem
    cases hmem

/-! ### Characterisation of the steepness selector -/

lemma foldlMax_mem : ∀ (xs : List Int) (x : Int), xs.foldl (fun a v => max a v) x ∈ x :: xs
  | [], x => List.mem_singleton.mpr rfl
  | y :: ys, x => by
    simp only [List.foldl_cons]
    have hrec := foldlMax_mem ys (max x y)
    rcases List.mem_cons.mp hrec with he | hmem
    · rw [he]
      rcases max_choice x y with h | h
      · rw [h]
        exact List.mem_cons_self x (y :: ys)
      · rw [h]
        exact List.mem_cons_of_mem x (List.mem_cons_self y ys)
    · exact List.mem_cons_of_mem x (List.mem_cons_of_mem y hmem)

lemma underscoreMax_spec {l : List Int} (h : l ≠ []) :
    ∃ g, underscoreMax l = some g ∧ g ∈ l ∧ ∀ v ∈ l, v ≤ g := by
  cases l with
  | nil => cases h rfl
  | cons x xs =>
    refine ⟨xs.foldl (fun a v => max a v) x, rfl, foldlMax_mem xs x, ?_⟩
    intro v hv
    rcases List.mem_cons.mp hv with rfl | hv2
    · exact foldl_max_init_le (fun v : Int => v) xs v
    · exact foldl_max_mem_le (fun v : Int => v) xs x v hv2

/-- The steepness selector on a non-empty list: there is a well-defined
maximum steepness, and the result is the filter of the input by it. -/
lemma selectPaths_spec {ps : List (List Box)} (hne : ps ≠ []) :
    ∃ g, underscoreMax (ps.map pathSteepness) = some g ∧
      selectPathsWithGreatestSteepness ps = ps.filter (fun p => pathSteepness p = g) ∧
      (∃ p ∈ ps, pathSteepness p = g) ∧ (∀ p ∈ ps, pathSteepness p ≤ g) := by
  have hmapne : ps.map pathSteepness ≠ [] := by
    intro hcontra
    exact hne (List.map_eq_nil_iff.mp hcontra)
  obtain ⟨g, hg, hmem, hle⟩ := underscoreMax_spec hmapne
  refine ⟨g, hg, ?_, ?_, ?_⟩
  · unfold selectPathsWithGreatestSteepness
    rw [hg]
  · rcases List.mem_map.mp hmem with ⟨p, hp, he⟩
    exact ⟨p, hp, he⟩
  · intro p hp
    exact hle _ (List.mem_map_of_mem pathSteepness hp)

/-! ### Upper bound: no descending chain is longer than the Bellman value -/

lemma chain_length_le {dm : DataMap} (hall : ∀ bx ∈ dm.flatten, SolvedBox dm bx) :
    ∀ (p : List Box) (bx : Box), bx ∈ dm.flatten → p.head? = some bx →
      List.Chain' (descStepIn dm) p → p.length ≤ bell dm bx + 1 := by
  intro p
  induction p with
  | nil =>
    intro bx _ hh _
    simp at hh
  | cons a rest ih =>
    intro bx hbx hh hchain
    have ha : a = bx := by
      simp only [List.head?_cons, Option.some_inj] at hh
      exact hh
    subst ha
    cases rest with
    | nil => simp
    | cons n rest2 =>
      have hcc := List.chain'_cons.mp hchain
      rcases hcc.1 with ⟨⟨dir, hdir, hn⟩, hlt⟩
      have hnmem : n ∈ dm.flatten := getNeighbour_mem hn
      have hnsolved := hall n hnmem
      have hcand : candidate dm a dir = some (bell dm n + 1) :=
        candidate_eq_some_iff.mpr ⟨n, hn, hlt, bell dm n, hnsolved.1, rfl⟩
      have hle := le_bell_of_candidate hdir hcand
      have hrec := ih n hnmem (by simp) hcc.2
      simp only [List.length_cons] at hrec ⊢
      omega

instance : IsTrans Box (fun a c => c.elevation < a.elevation) :=
  ⟨fun _ _ _ h1 h2 => lt_trans h2 h1⟩

lemma nodup_of_desc_chain {dm : DataMap} {p : List Box}
    (hchain : List.Chain' (descStepIn dm) p) : p.Nodup := by
  have h1 : List.Chain' (fun a c : Box => c.elevation < a.elevation) p :=
    hchain.imp (fun a c h => h.2)
  have h2 : List.Pairwise (fun a c : Box => c.elevation < a.elevation) p :=
    List.chain'_iff_pairwise.mp h1
  exact h2.imp (fun {a c} h heq => absurd (heq ▸ h) (lt_irrefl a.elevation))

lemma length_le_of_nodup_subset {p l : List Box} (hsub : ∀ q ∈ p, q ∈ l)
    (hnd : p.Nodup) : p.length ≤ l.length := by
  calc p.length = p.toFinset.card := (List.toFinset_card_of_nodup hnd).symm
    _ ≤ l.toFinset.card := Finset.card_le_card
        (fun q hq => List.mem_toFinset.mpr (hsub q (List.mem_toFinset.mp hq)))
    _ ≤ l.length := List.toFinset_card_le l

/-- Every defined `maxDistance` of a solved map is smaller than the number of
cells, so the pipelines always pass sufficient recursion fuel. -/
lemma maxDistance_lt_card {dm : DataMap} (hc : Coherent dm)
    (hall : ∀ bx ∈ dm.flatten, SolvedBox dm bx) :
    ∀ bx ∈ dm.flatten, ∀ d, bx.maxDistance = some d → d < dm.flatten.length := by
  intro bx hbx d hmd
  have hnn := getGoodPathsFromBox_ne_nil hall (d + 1) bx d hbx hmd (by omega)
  rcases List.exists_mem_of_ne_nil _ hnn with ⟨p, hp⟩
  rcases getGoodPathsFromBox_spec hc hall (d + 1) bx hbx p hp with
    ⟨d2, hd2, hlen, _, hchain, hmem⟩
  have hdd : d2 = d := by
    rw [hmd] at hd2
    injection hd2 with hh
    exact hh.symm
  subst hdd
  have hnd : p.Nodup := nodup_of_desc_chain (hchain.imp (fun a c h => h.1))
  have hcard := length_le_of_nodup_subset hmem hnd
  omega

/-! ### Equivalence of the two path enumerations on solved grids -/

lemma getGoodPathsFromBox_none {dm : DataMap} {box : Box} (fuel : Nat)
    (h : box.goodDirections = none) :
    getGoodPathsFromBox (fuel + 1) dm box = [[box]] := by
  unfold getGoodPathsFromBox
  rw [h]

lemma getGoodPathsFromBox_some {dm : DataMap} {box : Box} {gdl : List (Int × Int)} (fuel : Nat)
    (h : box.goodDirections = some gdl) :
    getGoodPathsFromBox (fuel + 1) dm box =
      (gdl.map (fun direction =>
        match getNeighbourInDirection dm box direction with
        | some neighbourBox =>
          (getGoodPathsFromBox fuel dm neighbourBox).map
            (fun onePathFromNeighbour => box :: onePathFromNeighbour)
        | none => [])).flatten := by
  conv_lhs => unfold getGoodPathsFromBox
  rw [h]

lemma flrGetGoodPathsFromBox_none {dm : DataMap} {box : Box} (fuel : Nat)
    (h : box.goodDirections = none) :
    flrGetGoodPathsFromBox (fuel + 1) dm box = [FlrPath.boxVal box] := by
  unfold flrGetGoodPathsFromBox
  rw [h]

lemma flrGetGoodPathsFromBox_some {dm : DataMap} {box : Box} {gdl : List (Int × Int)} (fuel : Nat)
    (h : box.goodDirections = some gdl) :
    flrGetGoodPathsFromBox (fuel + 1) dm box =
      (if gdl.length > 0 then
        (gdl.map (fun direction =>
          match getNeighbourInDirection dm box direction with
          | some neighbourBox =>
            (flrGetGoodPathsFromBox fuel dm neighbourBox).map
              (fun v => FlrPath.pathVal (box :: toPath v))
          | none => [])).flatten
      else [FlrPath.boxVal box]) := by
  conv_lhs => unfold flrGetGoodPathsFromBox
  rw [h]

lemma flr_toPath_eq {dm : DataMap} (hall : ∀ bx ∈ dm.flatten, SolvedBox dm bx) :
    ∀ (fuel : Nat) (bx : Box), bx ∈ dm.flatten →
      (flrGetGoodPathsFromBox fuel dm bx).map toPath = getGoodPathsFromBox fuel dm bx := by
  intro fuel
  induction fuel with
  | zero => intro bx _; rfl
  | succ fuel ih =>
    intro bx hbx
    rcases (hall bx hbx).cases with ⟨_, hgd, _⟩ | ⟨gdl, hgd, _, _, hfil, hne⟩
    · rw [flrGetGoodPathsFromBox_none fuel hgd, getGoodPathsFromBox_none fuel hgd]
      rfl
    · rw [flrGetGoodPathsFromBox_some fuel hgd, getGoodPathsFromBox_some fuel hgd,
        if_pos (List.length_pos.mpr hne)]
      rw [List.map_flatten]
      congr 1
      rw [List.map_map]
      apply List.map_congr_left
      intro dir hdir
      have hdirf : candidate dm bx dir = some (bell dm bx) := by
        rw [hfil] at hdir
        simpa using (List.mem_filter.mp hdir).2
      rcases candidate_eq_some_iff.mp hdirf with ⟨n, hn, _, _, _, _⟩
      have hnmem := getNeighbour_mem hn
      show List.map toPath (match getNeighbourInDirection dm bx dir with
        | some nb => (flrGetGoodPathsFromBox fuel dm nb).map
            (fun v => FlrPath.pathVal (bx :: toPath v))
        | none => []) = _
      rw [hn]
      show List.map toPath ((flrGetGoodPathsFromBox fuel dm n).map
        (fun v => FlrPath.pathVal (bx :: toPath v))) =
        (getGoodPathsFromBox fuel dm n).map (fun q => bx :: q)
      rw [List.map_map, ← ih n hnmem, List.map_map]
      rfl

lemma flr_elements_pathVal {dm : DataMap} {fuel : Nat} {bx : Box} {gdl : List (Int × Int)}
    (hgd : bx.goodDirections = some gdl) (hne : gdl ≠ []) :
    ∀ v ∈ flrGetGoodPathsFromBox fuel dm bx, ∃ t, v = FlrPath.pathVal (bx :: t) := by
  cases fuel with
  | zero => intro v hv; cases hv
  | succ fuel =>
    intro v hv
    rw [flrGetGoodPathsFromBox_some fuel hgd, if_pos (List.length_pos.mpr hne)] at hv
    rcases List.mem_flatten.mp hv with ⟨pl, hpl, hvpl⟩
    rcases List.mem_map.mp hpl with ⟨dir, _, hplval⟩
    cases hnb : getNeighbourInDirection dm bx dir with
    | none =>
      rw [← hplval, hnb] at hvpl
      cases hvpl
    | some nb =>
      rw [← hplval, hnb] at hvpl
      have hvpl2 : v ∈ (flrGetGoodPathsFromBox fuel dm nb).map
          (fun w => FlrPath.pathVal (bx :: toPath w)) := hvpl
      rcases List.mem_map.mp hvpl2 with ⟨w, _, hw⟩
      exact ⟨toPath w, hw.symm⟩

lemma flrAddSteepness_pathVal (bx : Box) (t : List Box) :
    flrAddSteepness (FlrPath.pathVal (bx :: t)) = some (pathSteepness (bx :: t)) := by
  rcases Option.isSome_iff_exists.mp
    (List.getLast?_isSome.mpr (List.cons_ne_nil bx t)) with ⟨e, he⟩
  unfold flrAddSteepness pathSteepness
  show (match (bx :: t).head?, (bx :: t).getLast? with
    | some startBox, some endBox => some (startBox.elevation - endBox.elevation)
    | _, _ => none) =
    some (match (bx :: t).head?, (bx :: t).getLast? with
    | some startBox, some endBox => startBox.elevation - endBox.elevation
    | _, _ => 0)
  rw [he, List.head?_cons]

lemma forEachAddSteepness_shaped :
    ∀ (ps : List FlrPath), (∀ v ∈ ps, ∃ bx t, v = FlrPath.pathVal (bx :: t)) →
      forEachAddSteepness ps = some (ps.map (fun v => pathSteepness (toPath v)))
  | [], _ => rfl
  | v :: ps, hshape => by
    rcases hshape v (List.mem_cons_self v ps) with ⟨bx, t, rfl⟩
    unfold forEachAddSteepness
    rw [flrAddSteepness_pathVal,
      forEachAddSteepness_shaped ps (fun w hw => hshape w (List.mem_cons_of_mem _ hw))]
    rfl

lemma filter_toPath_corr (g : Int) :
    ∀ (ps : List FlrPath), (∀ v ∈ ps, ∃ bx t, v = FlrPath.pathVal (bx :: t)) →
      (ps.filter (fun v => flrAddSteepness v = some g)).map toPath =
        (ps.map toPath).filter (fun p => pathSteepness p = g)
  | [], _ => rfl
  | v :: ps, hshape => by
    rcases hshape v (List.mem_cons_self v ps) with ⟨bx, t, rfl⟩
    have hrest := filter_toPath_corr g ps (fun w hw => hshape w (List.mem_cons_of_mem _ hw))
    by_cases hg : pathSteepness (bx :: t) = g
    · have hg2 : pathSteepness (toPath (FlrPath.pathVal (bx :: t))) = g := hg
      simp [List.filter_cons, flrAddSteepness_pathVal, hg, hg2, hrest]
    · have hg2 : ¬ pathSteepness (toPath (FlrPath.pathVal (bx :: t))) = g := hg
      simp [List.filter_cons, flrAddSteepness_pathVal, hg, hg2, hrest]

/-- The selector of find_longest_route.js, on a non-empty list of genuine
non-empty array paths, succeeds and agrees with the part_000 selector
applied to the underlying paths. -/
lemma flrSelect_eq {ps : List FlrPath}
    (hshape : ∀ v ∈ ps, ∃ bx t, v = FlrPath.pathVal (bx :: t)) (hne : ps ≠ []) :
    ∃ sel, flrSelectPathsWithGreatestSteepness ps = some sel ∧ sel ≠ [] ∧
      sel.map toPath = selectPathsWithGreatestSteepness (ps.map toPath) := by
  have hmapne : ps.map toPath ≠ [] := by
    intro hcontra
    exact hne (List.map_eq_nil_iff.mp hcontra)
  obtain ⟨g, hg, hsel, hgmem, _⟩ := selectPaths_spec hmapne
  have htrav := forEachAddSteepness_shaped ps hshape
  have hmaps : ps.map (fun v => pathSteepness (toPath v)) = (ps.map toPath).map pathSteepness := by
    rw [List.map_map]
    rfl
  refine ⟨ps.filter (fun v => flrAddSteepness v = some g), ?_, ?_, ?_⟩
  · unfold flrSelectPathsWithGreatestSteepness
    rw [htrav]
    show (match underscoreMax (ps.map (fun v => pathSteepness (toPath v))) with
      | none => some ([] : List FlrPath)
      | some greatestSteepness =>
        some (ps.filter (fun p => flrAddSteepness p = some greatestSteepness))) =
      some (ps.filter (fun v => flrAddSteepness v = some g))
    rw [hmaps, hg]
  · intro hnil
    have hcorr := filter_toPath_corr g ps hshape
    rw [hnil] at hcorr
    simp only [List.map_nil] at hcorr
    rcases hgmem with ⟨p, hp, hpg⟩
    have hpmem : p ∈ (ps.map toPath).filter (fun p => pathSteepness p = g) :=
      List.mem_filter.mpr ⟨hp, by simp [hpg]⟩
    rw [← hcorr] at hpmem
    cases hpmem
  · rw [filter_toPath_corr g ps hshape, hsel]

/-! ### Claim theorems -/

/-- The `maxDistance` of the neighbour in a direction, as a number (0 when
missing or undefined). -/
def neighbourMaxDistance (dm : DataMap) (bx : Box) (dir : Int × Int) : Nat :=
  ((getNeighbourInDirection dm bx dir).map (fun n => n.maxDistance.getD 0)).getD 0

lemma foldl_max_const_aux {c : Nat} :
    ∀ (l : List Nat), (∀ v ∈ l, v = c) → l.foldl (fun a v => max a v) c = c
  | [], _ => rfl
  | v :: l, h => by
    simp only [List.foldl_cons]
    rw [h v (List.mem_cons_self v l), max_self]
    exact foldl_max_const_aux l (fun w hw => h w (List.mem_cons_of_mem v hw))

lemma foldl_max_const {l : List Nat} {c : Nat} (h : ∀ v ∈ l, v = c) (hne : l ≠ []) :
    l.foldl (fun a v => max a v) 0 = c := by
  cases l with
  | nil => cases hne rfl
  | cons v l =>
    simp only [List.foldl_cons]
    rw [h v (List.mem_cons_self v l), Nat.zero_max]
    exact foldl_max_const_aux l (fun w hw => h w (List.mem_cons_of_mem v hw))

/-- Claim C1: after the Distance Solver processes every cell in ascending
elevation order, each cell of the solved grid carries in `maxDistance` the
number of edges of the longest strictly-descending 4-directionally-connected
path starting there (a path of that cell count exists, no longer one does),
and equivalently the Bellman form holds: `maxDistance` is
`1 + max(neighbour.maxDistance over goodDirections)` when `goodDirections`
is populated and 0 otherwise. -/
theorem claim1_maxDistance_longest_descent (m : List (List Int)) :
    ∀ bx ∈ (solveDataMap m).flatten, ∃ d : Nat, bx.maxDistance = some d ∧
      (∃ p, p.head? = some bx ∧ List.Chain' (descStepIn (solveDataMap m)) p ∧
        p.length = d + 1) ∧
      (∀ p, p.head? = some bx → List.Chain' (descStepIn (solveDataMap m)) p →
        p.length ≤ d + 1) ∧
      (bx.goodDirections = none → d = 0) ∧
      (∀ gdl, bx.goodDirections = some gdl → gdl ≠ [] ∧
        d = (gdl.map (neighbourMaxDistance (solveDataMap m) bx)).foldl
          (fun a v => max a v) 0 + 1) := by
  intro bx hbx
  obtain ⟨_, hc, hall⟩ := solveDataMap_spec m
  have hs := hall bx hbx
  refine ⟨bell (solveDataMap m) bx, hs.1, ?_, ?_, ?_, ?_⟩
  · have hnn := getGoodPathsFromBox_ne_nil hall (bell (solveDataMap m) bx + 1) bx
      (bell (solveDataMap m) bx) hbx hs.1 (by omega)
    rcases List.exists_mem_of_ne_nil _ hnn with ⟨p, hp⟩
    rcases getGoodPathsFromBox_spec hc hall _ bx hbx p hp with
      ⟨d2, hd2, hlen, hhead, hchain, _⟩
    have hdd : d2 = bell (solveDataMap m) bx := by
      rw [hs.1] at hd2
      injection hd2 with hh
      exact hh.symm
    subst hdd
    exact ⟨p, hhead, hchain.imp (fun a c h => h.1), hlen⟩
  · intro p hh hchain
    exact chain_length_le hall p bx hbx hh hchain
  · intro hgd
    rcases hs.cases with ⟨_, _, hb0⟩ | ⟨gdl, hgdl, _, _, _, _⟩
    · exact hb0
    · rw [hgd] at hgdl
      cases hgdl
  · intro gdl hgd
    rcases hs.cases with ⟨_, hgnone, _⟩ | ⟨gdl2, hgdl2, _, hpos, hfil, hne⟩
    · rw [hgd] at hgnone
      cases hgnone
    · rw [hgd] at hgdl2
      injection hgdl2 with hgg
      rw [← hgg] at hfil hne
      refine ⟨hne, ?_⟩
      have hconst : ∀ v ∈ gdl.map (neighbourMaxDistance (solveDataMap m) bx),
          v = bell (solveDataMap m) bx - 1 := by
        intro v hv
        rcases List.mem_map.mp hv with ⟨dir, hdir, hval⟩
        have hcand : candidate (solveDataMap m) bx dir = some (bell (solveDataMap m) bx) := by
          rw [hfil] at hdir
          simpa using (List.mem_filter.mp hdir).2
        rcases candidate_eq_some_iff.mp hcand with ⟨n, hn, _, nd, hnd, hb⟩
        rw [← hval]
        unfold neighbourMaxDistance
        rw [hn]
        simp only [Option.map_some', Option.getD_some, hnd]
        omega
      have hmapne : gdl.map (neighbourMaxDistance (solveDataMap m) bx) ≠ [] := by
        intro hcontra
        exact hne (List.map_eq_nil_iff.mp hcontra)
      rw [foldl_max_const hconst hmapne]
      omega

/-- The solved top-left box of the grid `[[2, 1]]`, used by witnesses. -/
def witnessBoxHigh : Box :=
  { x := 0, y := 0, elevation := 2, maxDistance := some 1, goodDirections := some [(1, 0)] }

/-- The solved terminal box of the grid `[[2, 1]]`, used by witnesses. -/
def witnessBoxLow : Box :=
  { x := 1, y := 0, elevation := 1, maxDistance := some 0, goodDirections := none }

/-- Claim C1 witness at the grid `[[2, 1]]` and its top-left cell. -/
theorem claim1_witness :
    witnessBoxHigh ∈ (solveDataMap [[2, 1]]).flatten ∧
    (∃ d : Nat, witnessBoxHigh.maxDistance = some d ∧
      (∃ p, p.head? = some witnessBoxHigh ∧
        List.Chain' (descStepIn (solveDataMap [[2, 1]])) p ∧ p.length = d + 1) ∧
      (∀ p, p.head? = some witnessBoxHigh →
        List.Chain' (descStepIn (solveDataMap [[2, 1]])) p → p.length ≤ d + 1) ∧
      (witnessBoxHigh.goodDirections = none → d = 0) ∧
      (∀ gdl, witnessBoxHigh.goodDirections = some gdl → gdl ≠ [] ∧
        d = (gdl.map (neighbourMaxDistance (solveDataMap [[2, 1]]) witnessBoxHigh)).foldl
          (fun a v => max a v) 0 + 1)) :=
  ⟨by decide, claim1_maxDistance_longest_descent [[2, 1]] _ (by decide)⟩

/-- Claim C6: in a solved grid every direction stored in a goodDirections
list points to an existing neighbour that is strictly lower and whose
`maxDistance` is exactly one less. -/
theorem claim6_goodDirections_sound (m : List (List Int)) :
    ∀ bx ∈ (solveDataMap m).flatten, ∀ gdl, bx.goodDirections = some gdl →
      ∀ dir ∈ gdl, ∃ n, getNeighbourInDirection (solveDataMap m) bx dir = some n ∧
        n.elevation < bx.elevation ∧
        ∃ dn : Nat, n.maxDistance = some dn ∧ bx.maxDistance = some (dn + 1) := by
  intro bx hbx gdl hgd dir hdir
  obtain ⟨_, _, hall⟩ := solveDataMap_spec m
  rcases (hall bx hbx).cases with ⟨_, hgnone, _⟩ | ⟨gdl2, hgdl2, hmd, _, hfil, _⟩
  · rw [hgd] at hgnone
    cases hgnone
  · rw [hgd] at hgdl2
    injection hgdl2 with hgg
    rw [← hgg] at hfil
    have hcand : candidate (solveDataMap m) bx dir = some (bell (solveDataMap m) bx) := by
      rw [hfil] at hdir
      simpa using (List.mem_filter.mp hdir).2
    rcases candidate_eq_some_iff.mp hcand with ⟨n, hn, hlt, nd, hnd, hb⟩
    exact ⟨n, hn, hlt, nd, hnd, by rw [hmd, hb]⟩

/-- Claim C6 witness at the grid `[[2, 1]]`. -/
theorem claim6_witness :
    (witnessBoxHigh ∈ (solveDataMap [[2, 1]]).flatten ∧
      witnessBoxHigh.goodDirections = some [(1, 0)] ∧
      ((1, 0) : Int × Int) ∈ [((1, 0) : Int × Int)]) ∧
    (∃ n, getNeighbourInDirection (solveDataMap [[2, 1]]) witnessBoxHigh (1, 0) = some n ∧
      n.elevation < witnessBoxHigh.elevation ∧
      ∃ dn : Nat, n.maxDistance = some dn ∧ witnessBoxHigh.maxDistance = some (dn + 1)) :=
  ⟨⟨by decide, rfl, by decide⟩,
    claim6_goodDirections_sound [[2, 1]] _ (by decide) [(1, 0)] rfl (1, 0) (by decide)⟩

/-- Claim C7: in a solved grid, `goodDirections` is populated exactly when
`maxDistance` is positive, and then holds between 1 and 4 directions; a cell
with no valid descending neighbour has `maxDistance` 0 and no
`goodDirections`. -/
theorem claim7_goodDirections_populated (m : List (List Int)) :
    ∀ bx ∈ (solveDataMap m).flatten,
      (bx.goodDirections = none → bx.maxDistance = some 0) ∧
      (∀ gdl, bx.goodDirections = some gdl →
        ∃ d : Nat, bx.maxDistance = some d ∧ 0 < d ∧ 1 ≤ gdl.length ∧ gdl.length ≤ 4) ∧
      (∀ d : Nat, bx.maxDistance = some d → 0 < d →
        ∃ gdl, bx.goodDirections = some gdl ∧ gdl ≠ []) := by
  intro bx hbx
  obtain ⟨_, _, hall⟩ := solveDataMap_spec m
  rcases (hall bx hbx).cases with ⟨hmd, hgd, _⟩ | ⟨gdl, hgd, hmd, hpos, hfil, hne⟩
  · refine ⟨fun _ => hmd, ?_, ?_⟩
    · intro gdl hgdl
      rw [hgd] at hgdl
      cases hgdl
    · intro d hd hdpos
      rw [hmd] at hd
      injection hd with hh
      omega
  · refine ⟨?_, ?_, ?_⟩
    · intro hgnone
      rw [hgd] at hgnone
      cases hgnone
    · intro gdl2 hgdl2
      rw [hgd] at hgdl2
      injection hgdl2 with hgg
      subst hgg
      refine ⟨bell (solveDataMap m) bx, hmd, hpos, ?_, ?_⟩
      · have := List.length_pos.mpr hne
        omega
      · rw [hfil]
        have := List.length_filter_le
          (fun d => decide (candidate (solveDataMap m) bx d = some (bell (solveDataMap m) bx)))
          DIRECTIONS
        simpa using this
    · intro d hd hdpos
      exact ⟨gdl, hgd, hne⟩

/-- Claim C7 witness at the grid `[[2, 1]]`. -/
theorem claim7_witness :
    witnessBoxLow ∈ (solveDataMap [[2, 1]]).flatten ∧
    ((witnessBoxLow.goodDirections = none → witnessBoxLow.maxDistance = some 0) ∧
     (∀ gdl, witnessBoxLow.goodDirections = some gdl →
       ∃ d : Nat, witnessBoxLow.maxDistance = some d ∧
         0 < d ∧ 1 ≤ gdl.length ∧ gdl.length ≤ 4) ∧
     (∀ d : Nat, witnessBoxLow.maxDistance = some d → 0 < d →
       ∃ gdl, witnessBoxLow.goodDirections = some gdl ∧ gdl ≠ [])) :=
  ⟨by decide, claim7_goodDirections_populated [[2, 1]] _ (by decide)⟩

/-- Claim C2: on a non-empty solved grid, every path produced by
`getGoodPathsFromStartPoints` from the best start points has exactly
`bestDistance + 1` cells, with consecutive cells grid-adjacent and strictly
decreasing in elevation, where `bestDistance` is the grid-wide maximum
`maxDistance` (this holds for every fuel bound given to the embedded
recursion, in particular the cell count the pipeline passes). -/
theorem claim2_paths_are_maximal_descents (m : List (List Int))
    (hne : (solveDataMap m).flatten ≠ []) (fuel : Nat) :
    ∀ p ∈ getGoodPathsFromStartPoints fuel (solveDataMap m)
        (findBestStartPoints (solveDataMap m)),
      p.length = maxMaxDistance (solveDataMap m) + 1 ∧ List.Chain' descStep p := by
  obtain ⟨_, hc, hall⟩ := solveDataMap_spec m
  have hallsome : ∀ bx ∈ (solveDataMap m).flatten, (bx.maxDistance).isSome = true := by
    intro bx hbx
    rw [(hall bx hbx).1]
    rfl
  obtain ⟨hbest, _⟩ := findBestStartPoints_spec hallsome hne
  intro p hp
  unfold getGoodPathsFromStartPoints at hp
  rcases List.mem_flatten.mp hp with ⟨pl, hpl, hppl⟩
  rcases List.mem_map.mp hpl with ⟨s, hs, hplval⟩
  rw [hbest] at hs
  have hsf := List.mem_filter.mp hs
  have hsmem : s ∈ (solveDataMap m).flatten := hsf.1
  have hsmd : s.maxDistance = some (maxMaxDistance (solveDataMap m)) := by
    simpa using hsf.2
  rw [← hplval] at hppl
  rcases getGoodPathsFromBox_spec hc hall fuel s hsmem p hppl with
    ⟨d, hd, hlen, _, hchain, _⟩
  have hdd : d = maxMaxDistance (solveDataMap m) := by
    rw [hsmd] at hd
    injection hd with hh
    exact hh.symm
  subst hdd
  exact ⟨hlen, hchain.imp (fun a c h => h.2)⟩

/-- Claim C2 witness at the grid `[[2, 1]]` with fuel 2. -/
theorem claim2_witness :
    (solveDataMap [[2, 1]]).flatten ≠ [] ∧
    ∀ p ∈ getGoodPathsFromStartPoints 2 (solveDataMap [[2, 1]])
        (findBestStartPoints (solveDataMap [[2, 1]])),
      p.length = maxMaxDistance (solveDataMap [[2, 1]]) + 1 ∧ List.Chain' descStep p :=
  ⟨by decide, claim2_paths_are_maximal_descents [[2, 1]] (by decide) 2⟩

/-- Claim C8: on a non-empty solved grid, `findBestStartPoints` returns
exactly the cells whose `maxDistance` equals the grid-wide maximum (in scan
order, possibly several tied cells), the result is non-empty, and every
enumerated path starts at such a cell. -/
theorem claim8_best_start_points (m : List (List Int))
    (hne : (solveDataMap m).flatten ≠ []) (fuel : Nat) :
    findBestStartPoints (solveDataMap m) =
      (solveDataMap m).flatten.filter
        (fun bx => bx.maxDistance = some (maxMaxDistance (solveDataMap m))) ∧
    findBestStartPoints (solveDataMap m) ≠ [] ∧
    ∀ p ∈ getGoodPathsFromStartPoints fuel (solveDataMap m)
        (findBestStartPoints (solveDataMap m)),
      ∃ s, p.head? = some s ∧ s.maxDistance = some (maxMaxDistance (solveDataMap m)) := by
  obtain ⟨_, hc, hall⟩ := solveDataMap_spec m
  have hallsome : ∀ bx ∈ (solveDataMap m).flatten, (bx.maxDistance).isSome = true := by
    intro bx hbx
    rw [(hall bx hbx).1]
    rfl
  obtain ⟨hbest, hbestne⟩ := findBestStartPoints_spec hallsome hne
  refine ⟨hbest, hbestne, ?_⟩
  intro p hp
  unfold getGoodPathsFromStartPoints at hp
  rcases List.mem_flatten.mp hp with ⟨pl, hpl, hppl⟩
  rcases List.mem_map.mp hpl with ⟨s, hs, hplval⟩
  rw [hbest] at hs
  have hsf := List.mem_filter.mp hs
  rw [← hplval] at hppl
  rcases getGoodPathsFromBox_spec hc hall fuel s hsf.1 p hppl with
    ⟨d, _, _, hhead, _, _⟩
  exact ⟨s, hhead, by simpa using hsf.2⟩

/-- Claim C8 witness at the grid `[[2, 1]]` with fuel 2. -/
theorem claim8_witness :
    (solveDataMap [[2, 1]]).flatten ≠ [] ∧
    (findBestStartPoints (solveDataMap [[2, 1]]) =
      (solveDataMap [[2, 1]]).flatten.filter
        (fun bx => bx.maxDistance = some (maxMaxDistance (solveDataMap [[2, 1]]))) ∧
    findBestStartPoints (solveDataMap [[2, 1]]) ≠ [] ∧
    ∀ p ∈ getGoodPathsFromStartPoints 2 (solveDataMap [[2, 1]])
        (findBestStartPoints (solveDataMap [[2, 1]])),
      ∃ s, p.head? = some s ∧
        s.maxDistance = some (maxMaxDistance (solveDataMap [[2, 1]]))) :=
  ⟨by decide, claim8_best_start_points [[2, 1]] (by decide) 2⟩

/-- Claim C3: on a non-empty list of non-empty paths, the Steepness Selector
returns exactly the input paths whose steepness equals the maximum steepness
over the list, preserving relative input order (a sublist); the output is
non-empty and all its paths share that maximum steepness. -/
theorem claim3_steepness_selector (ps : List (List Box)) (hne : ps ≠ [])
    (hpaths : ∀ p ∈ ps, p ≠ []) :
    ∃ g : Int, (∀ p ∈ ps, pathSteepness p ≤ g) ∧ (∃ p ∈ ps, pathSteepness p = g) ∧
      selectPathsWithGreatestSteepness ps = ps.filter (fun p => pathSteepness p = g) ∧
      (selectPathsWithGreatestSteepness ps).Sublist ps ∧
      selectPathsWithGreatestSteepness ps ≠ [] ∧
      ∀ p ∈ selectPathsWithGreatestSteepness ps, pathSteepness p = g := by
  obtain ⟨g, _, hsel, hmem, hle⟩ := selectPaths_spec hne
  refine ⟨g, hle, hmem, hsel, ?_, ?_, ?_⟩
  · rw [hsel]
    exact List.filter_sublist ps
  · rcases hmem with ⟨p, hp, hpg⟩
    rw [hsel]
    intro hnil
    have hpmem : p ∈ ps.filter (fun p => pathSteepness p = g) :=
      List.mem_filter.mpr ⟨hp, by simp [hpg]⟩
    rw [hnil] at hpmem
    cases hpmem
  · intro p hp
    rw [hsel] at hp
    simpa using (List.mem_filter.mp hp).2

/-- Claim C3 witness on a concrete two-path list. -/
theorem claim3_witness :
    ([[witnessBoxHigh, witnessBoxLow], [witnessBoxLow]] : List (List Box)) ≠ [] ∧
    (∀ p ∈ ([[witnessBoxHigh, witnessBoxLow], [witnessBoxLow]] : List (List Box)), p ≠ []) ∧
    (∃ g : Int,
      (∀ p ∈ ([[witnessBoxHigh, witnessBoxLow], [witnessBoxLow]] : List (List Box)),
        pathSteepness p ≤ g) ∧
      (∃ p ∈ ([[witnessBoxHigh, witnessBoxLow], [witnessBoxLow]] : List (List Box)),
        pathSteepness p = g) ∧
      selectPathsWithGreatestSteepness [[witnessBoxHigh, witnessBoxLow], [witnessBoxLow]] =
        ([[witnessBoxHigh, witnessBoxLow], [witnessBoxLow]] : List (List Box)).filter
          (fun p => pathSteepness p = g) ∧
      (selectPathsWithGreatestSteepness
        [[witnessBoxHigh, witnessBoxLow], [witnessBoxLow]]).Sublist
          [[witnessBoxHigh, witnessBoxLow], [witnessBoxLow]] ∧
      selectPathsWithGreatestSteepness [[witnessBoxHigh, witnessBoxLow], [witnessBoxLow]] ≠ [] ∧
      ∀ p ∈ selectPathsWithGreatestSteepness [[witnessBoxHigh, witnessBoxLow], [witnessBoxLow]],
        pathSteepness p = g) :=
  ⟨by decide, by decide,
    claim3_steepness_selector [[witnessBoxHigh, witnessBoxLow], [witnessBoxLow]]
      (by decide) (by decide)⟩

/-- Claim C4 evidence (the code lacks the claimed behaviour): on the empty
grid neither implementation signals an EmptyGrid error kind.  The part_000
pipeline completes normally and returns an empty result list, and the
find_longest_route.js pipeline dies with a generic TypeError (modelled
`none`) when it dereferences `steepestPaths[0]`. -/
theorem claim4_empty_grid_behaviour :
    processMapP000 [] = [] ∧ flrProcessMap [] = none := by
  constructor
  · rfl
  · rfl

/-- Claim C5 evidence: on the grid `[[1]]` the part_000 pipeline returns
exactly one path, the single-cell sequence of elevation 1, with cell count 1
and steepness 0, as the claim states; but find_longest_route.js throws a
TypeError (modelled `none`) inside `addSteepness`, because its
`getGoodPathsFromBox` base case returns a bare box instead of a
one-element path. -/
theorem claim5_single_cell_grid :
    (processMapP000 [[1]]).map (fun p => p.map Box.elevation) = [[1]] ∧
    (processMapP000 [[1]]).map List.length = [1] ∧
    (processMapP000 [[1]]).map pathSteepness = [0] ∧
    flrProcessMap [[1]] = none := by
  refine ⟨?_, ?_, ?_, ?_⟩
  · rfl
  · rfl
  · rfl
  · rfl

/-- Claim C9 counterexample: on the grid `[[4,3],[2,1]]` the pipeline finds
paths of 3 cells, not 4 — no produced path has length 4, because the cells
holding 3 and 2 are diagonal, not 4-adjacent. -/
theorem claim9_counterexample :
    (processMapP000 [[4, 3], [2, 1]]).map List.length = [3, 3] ∧
    4 ∉ (processMapP000 [[4, 3], [2, 1]]).map List.length := by
  constructor
  · rfl
  · decide

/-- Claim C9 amended: on the grid `[[4,3],[2,1]]` the longest descending
paths found have length 3 (cells; 2 edges), namely elevations 4-2-1 and
4-3-1, and the selected steepness is 3. -/
theorem claim9_amended :
    (processMapP000 [[4, 3], [2, 1]]).map (fun p => p.map Box.elevation) =
      [[4, 2, 1], [4, 3, 1]] ∧
    (processMapP000 [[4, 3], [2, 1]]).map List.length = [3, 3] ∧
    (processMapP000 [[4, 3], [2, 1]]).map pathSteepness = [3, 3] := by
  refine ⟨?_, ?_, ?_⟩
  · rfl
  · rfl
  · rfl

/-- Claim C10 counterexample: on the non-empty grid `[[1]]` the two
implementations do not produce the same paths — part_000 returns the
single-cell path of elevation 1 while find_longest_route.js throws a
TypeError (modelled `none`), precisely because of the differing base cases
`[ [ box ] ]` versus `[ box ]`. -/
theorem claim10_counterexample :
    flrProcessMap [[1]] = none ∧
    (processMapP000 [[1]]).map (fun p => p.map Box.elevation) = [[1]] := by
  constructor
  · rfl
  · rfl

/-- Claim C10 amended: on every grid with at least one cell whose maximal
descending paths have at least 2 cells (grid-wide maximum `maxDistance`
positive), the find_longest_route.js pipeline succeeds and returns exactly
the part_000 pipeline paths (up to the `toPath` view of its return values);
the two implementations differ only on grids whose maximal paths are single
cells, where find_longest_route.js throws. -/
theorem claim10_pipelines_agree (m : List (List Int))
    (hne : (solveDataMap m).flatten ≠ [])
    (hpos : 0 < maxMaxDistance (solveDataMap m)) :
    ∃ sp, flrProcessMap m = some sp ∧ sp.map toPath = processMapP000 m := by
  obtain ⟨_, hc, hall⟩ := solveDataMap_spec m
  have hallsome : ∀ bx ∈ (solveDataMap m).flatten, (bx.maxDistance).isSome = true := by
    intro bx hbx
    rw [(hall bx hbx).1]
    rfl
  obtain ⟨hbest, hbestne⟩ := findBestStartPoints_spec hallsome hne
  have hstart : ∀ s ∈ findBestStartPoints (solveDataMap m),
      s ∈ (solveDataMap m).flatten ∧
      s.maxDistance = some (maxMaxDistance (solveDataMap m)) := by
    intro s hs
    rw [hbest] at hs
    have hsf := List.mem_filter.mp hs
    exact ⟨hsf.1, by simpa using hsf.2⟩
  have hstartgd : ∀ s ∈ findBestStartPoints (solveDataMap m),
      ∃ gdl, s.goodDirections = some gdl ∧ gdl ≠ [] := by
    intro s hs
    rcases hstart s hs with ⟨hsmem, hsmd⟩
    rcases (hall s hsmem).cases with ⟨hmd0, _, _⟩ | ⟨gdl, hgd, _, _, _, hgne⟩
    · rw [hmd0] at hsmd
      injection hsmd with hh
      omega
    · exact ⟨gdl, hgd, hgne⟩
  have hpot : (((findBestStartPoints (solveDataMap m)).map
        (fun s => flrGetGoodPathsFromBox (solveDataMap m).flatten.length
          (solveDataMap m) s)).flatten).map toPath =
      getGoodPathsFromStartPoints (solveDataMap m).flatten.length (solveDataMap m)
        (findBestStartPoints (solveDataMap m)) := by
    unfold getGoodPathsFromStartPoints
    rw [List.map_flatten]
    congr 1
    rw [List.map_map]
    apply List.map_congr_left
    intro s hs
    exact flr_toPath_eq hall (solveDataMap m).flatten.length s (hstart s hs).1
  have hshape : ∀ v ∈ ((findBestStartPoints (solveDataMap m)).map
        (fun s => flrGetGoodPathsFromBox (solveDataMap m).flatten.length
          (solveDataMap m) s)).flatten,
      ∃ bx t, v = FlrPath.pathVal (bx :: t) := by
    intro v hv
    rcases List.mem_flatten.mp hv with ⟨pl, hpl, hvpl⟩
    rcases List.mem_map.mp hpl with ⟨s, hs, hplval⟩
    rcases hstartgd s hs with ⟨gdl, hgd, hgne⟩
    rw [← hplval] at hvpl
    rcases flr_elements_pathVal hgd hgne v hvpl with ⟨t, ht⟩
    exact ⟨s, t, ht⟩
  have hp000ne : getGoodPathsFromStartPoints (solveDataMap m).flatten.length
      (solveDataMap m) (findBestStartPoints (solveDataMap m)) ≠ [] := by
    rcases List.exists_mem_of_ne_nil _ hbestne with ⟨s, hs⟩
    rcases hstart s hs with ⟨hsmem, hsmd⟩
    have hfuelgt : maxMaxDistance (solveDataMap m) < (solveDataMap m).flatten.length :=
      maxDistance_lt_card hc hall s hsmem _ hsmd
    have hne2 := getGoodPathsFromBox_ne_nil hall (solveDataMap m).flatten.length s
      (maxMaxDistance (solveDataMap m)) hsmem hsmd hfuelgt
    unfold getGoodPathsFromStartPoints
    intro hcontra
    rw [List.flatten_eq_nil_iff] at hcontra
    exact hne2 (hcontra _ (List.mem_map.mpr ⟨s, hs, rfl⟩))
  have hflrne : ((findBestStartPoints (solveDataMap m)).map
      (fun s => flrGetGoodPathsFromBox (solveDataMap m).flatten.length
        (solveDataMap m) s)).flatten ≠ [] := by
    intro hcontra
    apply hp000ne
    rw [← hpot, hcontra]
    rfl
  obtain ⟨sel, hselq, hselne, hselmap⟩ := flrSelect_eq hshape hflrne
  refine ⟨sel, ?_, ?_⟩
  · have hunfold : flrProcessMap m =
        (match flrSelectPathsWithGreatestSteepness
            (((findBestStartPoints (solveDataMap m)).map
              (fun s => flrGetGoodPathsFromBox (solveDataMap m).flatten.length
                (solveDataMap m) s)).flatten) with
         | none => none
         | some steepestPaths =>
           if steepestPaths.isEmpty then none else some steepestPaths) := rfl
    rw [hunfold, hselq]
    have hempty : sel.isEmpty = false := List.isEmpty_eq_false.mpr hselne
    show (if sel.isEmpty then none else some sel) = some sel
    rw [hempty]
    rfl
  · rw [hselmap, hpot]
    rfl

/-- Claim C10 amended witness at the grid `[[2, 1]]`. -/
theorem claim10_witness :
    (solveDataMap [[2, 1]]).flatten ≠ [] ∧
    0 < maxMaxDistance (solveDataMap [[2, 1]]) ∧
    (∃ sp, flrProcessMap [[2, 1]] = some sp ∧
      sp.map toPath = processMapP000 [[2, 1]]) :=
  ⟨by decide, by decide, claim10_pipelines_agree [[2, 1]] (by decide) (by decide)⟩

end Skimap
